import Mathlib

/-!
# Verification of the caterwaul syntax engine (src/caterwaul.js)

This file gives a shallow embedding of the syntax-tree data model, the
pattern matcher, the macro expander, the lexer/parser and the serializer of
`src/caterwaul.js`, and settles the frozen claims C1..C10 against it.

Two models are used:

* a pure inductive tree `syntax_tree` for the post-parse tree operations
  (`macro_try_match`, `rmap`, `s`, `macro_expand`), where JavaScript node
  references are values and mutation does not occur; and
* an arena model (`Arena`, nodes addressed by index) for the operations whose
  behaviour depends on object identity and mutation: the doubly-linked ribbon
  built by the lexer, the parser's fold passes, `map`/`rmap` reparenting
  behaviour and `flatten`.

JavaScript truthiness conventions are modelled with `Option`: a callback that
may return a node or a falsy value becomes a function into `Option`, with
`none` for every falsy result.
-/

/-- The pure form of `syntax_node` (caterwaul.js line 159): a `data` string
plus an ordered list of children.  The ribbon links `l`, `r`, `p` are not
part of this model (they are cleared after parsing); the arena model below
carries them. -/
inductive syntax_tree : Type where
  | node : String → List syntax_tree → syntax_tree
deriving Repr

namespace syntax_tree

/-- The `data` field of a node. -/
def data : syntax_tree → String
  | node d _ => d

/-- The children of a node. -/
def children : syntax_tree → List syntax_tree
  | node _ cs => cs

/-- Structural (value) equality of trees, used to obtain decidable equality. -/
def beq : syntax_tree → syntax_tree → Bool
  | node d cs, node d' cs' => d = d' && beqList cs cs'
where
  /-- Pointwise `beq` on child lists. -/
  beqList : List syntax_tree → List syntax_tree → Bool
  | [], [] => true
  | c :: cs, c' :: cs' => beq c c' && beqList cs cs'
  | _, _ => false

mutual

theorem beq_iff : ∀ a b : syntax_tree, beq a b = true ↔ a = b
  | node d cs, node d' cs' => by
    simp only [beq, Bool.and_eq_true, decide_eq_true_eq, node.injEq]
    rw [beqList_iff cs cs']

theorem beqList_iff : ∀ as bs : List syntax_tree, beq.beqList as bs = true ↔ as = bs
  | [], [] => by simp [beq.beqList]
  | [], _ :: _ => by simp [beq.beqList]
  | _ :: _, [] => by simp [beq.beqList]
  | a :: as, b :: bs => by
    simp only [beq.beqList, Bool.and_eq_true, List.cons.injEq]
    rw [beq_iff a b, beqList_iff as bs]

end

instance : DecidableEq syntax_tree := fun a b =>
  decidable_of_iff (beq a b = true) (beq_iff a b)

end syntax_tree

namespace syntax_tree

mutual

/-- `macro_try_match` (caterwaul.js lines 691-696): `none` models JavaScript
`null` (no match); `some ws` models the (possibly empty) array of captured
wildcard subtrees.  A pattern whose `data` is `"_"` matches any subject and
captures it; otherwise `data` and arity must agree and the children are
matched positionally, concatenating captures left to right. -/
def macro_try_match : syntax_tree → syntax_tree → Option (List syntax_tree)
  | node pd pcs, node td tcs =>
    if pd = "_" then some [node td tcs]
    else if pd ≠ td ∨ pcs.length ≠ tcs.length then none
    else macro_try_match_children pcs tcs

/-- The `for` loop of `macro_try_match`: match children pairwise, return
`none` on the first failure, else the concatenation of the captures. -/
def macro_try_match_children : List syntax_tree → List syntax_tree → Option (List syntax_tree)
  | [], [] => some []
  | p :: ps, t :: ts =>
    match macro_try_match p t with
    | none => none
    | some ws =>
      match macro_try_match_children ps ts with
      | none => none
      | some rest => some (ws ++ rest)
  | _, _ => none

end

/-- `map` (caterwaul.js line 195) on the pure model: distribute `f` over the
children, a `none` result keeping the original child (JavaScript
`f(this[i], i) || this[i]`), and rebuild a node with the same `data`. -/
def map (f : syntax_tree → Option syntax_tree) : syntax_tree → syntax_tree
  | node d cs => node d (cs.map fun c => (f c).getD c)

mutual

/-- `rmap` (caterwaul.js line 197): recursive map with cutoff.  In the source
`f`'s result is kept when it is truthy and not reference-identical to the
node (`! r || r === this ? this.map(...) : r`); reference identity has no
counterpart on pure values, so here `f` returns `some r` exactly when the
JavaScript callback returns a truthy node other than its argument, and
`none` for a falsy result or the node itself.  On `some r` the replacement is
returned without descending into it; otherwise the children are rmapped
(the source's `this.map(function (n) {return n && n.rmap(f)})`). -/
def rmap (f : syntax_tree → Option syntax_tree) : syntax_tree → syntax_tree
  | node d cs =>
    match f (node d cs) with
    | some r => r
    | none => node d (rmap_children f cs)

/-- The child traversal of `rmap`'s descend case, i.e. `map` applied to the
always-truthy callback `n.rmap(f)`. -/
def rmap_children (f : syntax_tree → Option syntax_tree) : List syntax_tree → List syntax_tree
  | [] => []
  | c :: cs => rmap f c :: rmap_children f cs

end

theorem rmap_children_eq_map (f : syntax_tree → Option syntax_tree) :
    ∀ cs : List syntax_tree, rmap_children f cs = cs.map (rmap f)
  | [] => rfl
  | c :: cs => by rw [rmap_children, List.map_cons, rmap_children_eq_map f cs]

mutual

/-- `rmap` with a counter threaded through the traversal, modelling the
mutable closure variable `i` of the `s` method (caterwaul.js line 202): the
callback takes and returns the counter alongside its optional replacement.
The traversal order (node first, then children left to right) is that of
`rmap`/`map`. -/
def rmapS (f : Nat → syntax_tree → Nat × Option syntax_tree) (st : Nat) :
    syntax_tree → Nat × syntax_tree
  | node d cs =>
    match f st (node d cs) with
    | (st', some r) => (st', r)
    | (st', none) =>
      let r := rmapS_children f st' cs
      (r.1, node d r.2)

/-- Children traversal for `rmapS`, threading the counter left to right. -/
def rmapS_children (f : Nat → syntax_tree → Nat × Option syntax_tree) (st : Nat) :
    List syntax_tree → Nat × List syntax_tree
  | [] => (st, [])
  | c :: cs =>
    let r := rmapS f st c
    let rs := rmapS_children f r.1 cs
    (rs.1, r.2 :: rs.2)

end

/-- The array branch of the `s` method (caterwaul.js line 202):
`this.rmap(function (n) {return n.data === data && xs[i++ % xs.length]})`.
The counter is bumped at every node whose `data` matches; the replacement is
the cyclically indexed entry (`none` when `xs` is empty, as `xs[NaN]` is
`undefined` in the source). -/
def s_list (dat : String) (xs : List syntax_tree) (t : syntax_tree) : syntax_tree :=
  (rmapS (fun i n => if n.data = dat then (i + 1, xs[i % xs.length]?) else (i, none)) 0 t).2

/-- The non-array branch of the `s` method (caterwaul.js line 203):
`this.rmap(function (n) {return n.data === data && xs})`. -/
def s_single (dat : String) (x : syntax_tree) (t : syntax_tree) : syntax_tree :=
  rmap (fun n => if n.data = dat then some x else none) t

end syntax_tree

open syntax_tree

/-- The per-node loop of `macro_expand` (caterwaul.js lines 711-712): try
each `(pattern, expander)` pair in registration order; on a match call the
expander on the captures; a truthy result is returned at once, a falsy one
(`none`) falls through to the next pair.  Expanders are modelled as functions
from the capture list into `Option syntax_tree` (the `context` binding of the
source is a `this`-reference inside the closure and is not separated out). -/
def macro_find (macros : List syntax_tree)
    (expanders : List (List syntax_tree → Option syntax_tree))
    (n : syntax_tree) : Option syntax_tree :=
  match macros, expanders with
  | m :: ms, e :: es =>
    (match macro_try_match m n with
     | some caps =>
       match e caps with
       | some r => some r
       | none => macro_find ms es n
     | none => macro_find ms es n)
  | _, _ => none

/-- `macro_expand` (caterwaul.js lines 710-712): rmap the tree with the
per-node pattern scan. -/
def macro_expand (t : syntax_tree) (macros : List syntax_tree)
    (expanders : List (List syntax_tree → Option syntax_tree)) : syntax_tree :=
  t.rmap (macro_find macros expanders)

mutual

/-- The matching relation spelled out by claim C1: a pattern whose `data` is
`"_"` matches any subject, capturing exactly that subject; any other pattern
matches only a subject with the same `data` and the same number of children,
each child matching positionally, and captures the left-to-right
concatenation of the children's captures. -/
inductive Matches : syntax_tree → syntax_tree → List syntax_tree → Prop where
  | wild : ∀ (pcs : List syntax_tree) (t : syntax_tree), Matches (.node "_" pcs) t [t]
  | branch : ∀ (d : String) (ps ts : List syntax_tree) (caps : List syntax_tree),
      d ≠ "_" → MatchesL ps ts caps → Matches (.node d ps) (.node d ts) caps

/-- Positional matching of child lists, concatenating captures. -/
inductive MatchesL : List syntax_tree → List syntax_tree → List syntax_tree → Prop where
  | nil : MatchesL [] [] []
  | cons : ∀ p t c ps ts cs, Matches p t c → MatchesL ps ts cs →
      MatchesL (p :: ps) (t :: ts) (c ++ cs)

end

theorem MatchesL_length : ∀ {ps ts cs : List syntax_tree}, MatchesL ps ts cs →
    ps.length = ts.length
  | [], _, _, h => by cases h; rfl
  | _ :: ps, _, _, h => by
    cases h with
    | cons p t c ps ts cs hc hcs => simpa using MatchesL_length hcs

mutual

theorem macro_try_match_iff : ∀ (p t : syntax_tree) (caps : List syntax_tree),
    macro_try_match p t = some caps ↔ Matches p t caps
  | .node pd pcs, .node td tcs, caps => by
    rw [macro_try_match]
    by_cases h : pd = "_"
    · subst h
      rw [if_pos rfl]
      simp only [Option.some.injEq]
      constructor
      · rintro rfl; exact Matches.wild pcs (.node td tcs)
      · intro hm
        cases hm
        next => rfl
        next hne hl => exact absurd rfl hne
    · rw [if_neg h]
      by_cases h2 : pd ≠ td ∨ pcs.length ≠ tcs.length
      · rw [if_pos h2]
        constructor
        · intro hc; exact absurd hc (by simp)
        · intro hm
          cases hm
          next => exact absurd rfl h
          next hne hl =>
            rcases h2 with h2 | h2
            · exact absurd rfl h2
            · exact absurd (MatchesL_length hl) h2
      · rw [if_neg h2]
        push_neg at h2
        obtain ⟨rfl, _⟩ := h2
        constructor
        · intro hc
          exact Matches.branch pd pcs tcs caps h
            ((macro_try_match_children_iff pcs tcs caps).mp hc)
        · intro hm
          cases hm
          next => exact absurd rfl h
          next hne hl =>
            exact (macro_try_match_children_iff _ _ _).mpr hl

theorem macro_try_match_children_iff : ∀ (ps ts caps : List syntax_tree),
    macro_try_match_children ps ts = some caps ↔ MatchesL ps ts caps
  | [], [], caps => by
    rw [macro_try_match_children]
    simp only [Option.some.injEq]
    constructor
    · rintro rfl; exact MatchesL.nil
    · intro hm; cases hm; rfl
  | [], t :: ts, caps => by
    simp only [macro_try_match_children]
    constructor
    · intro hc; exact absurd hc (by simp)
    · intro hm; exact absurd (MatchesL_length hm) (by simp)
  | p :: ps, [], caps => by
    simp only [macro_try_match_children]
    constructor
    · intro hc; exact absurd hc (by simp)
    · intro hm; exact absurd (MatchesL_length hm) (by simp)
  | p :: ps, t :: ts, caps => by
    rw [macro_try_match_children]
    cases hmt : macro_try_match p t with
    | none =>
      constructor
      · intro hc; exact absurd hc (by simp)
      · intro hm
        cases hm
        next hc hcs =>
          rw [(macro_try_match_iff _ _ _).mpr hc] at hmt
          exact absurd hmt (by simp)
    | some ws =>
      cases hrest : macro_try_match_children ps ts with
      | none =>
        constructor
        · intro hc; exact absurd hc (by simp)
        · intro hm
          cases hm
          next hc hcs =>
            rw [(macro_try_match_children_iff _ _ _).mpr hcs] at hrest
            exact absurd hrest (by simp)
      | some rest =>
        simp only [Option.some.injEq]
        constructor
        · rintro rfl
          exact MatchesL.cons p t ws ps ts rest
            ((macro_try_match_iff p t ws).mp hmt)
            ((macro_try_match_children_iff ps ts rest).mp hrest)
        · intro hm
          cases hm
          next hc hcs =>
            rw [(macro_try_match_iff _ _ _).mpr hc, Option.some.injEq] at hmt
            rw [(macro_try_match_children_iff _ _ _).mpr hcs, Option.some.injEq] at hrest
            rw [hmt, hrest]

end

theorem data_node (d : String) (cs : List syntax_tree) : data (node d cs) = d := rfl

theorem rmap_eq_some (f : syntax_tree → Option syntax_tree) (d : String)
    (cs : List syntax_tree) (r : syntax_tree) (h : f (.node d cs) = some r) :
    rmap f (.node d cs) = r := by
  rw [rmap, h]

theorem rmap_eq_none (f : syntax_tree → Option syntax_tree) (d : String)
    (cs : List syntax_tree) (h : f (.node d cs) = none) :
    rmap f (.node d cs) = .node d (cs.map (rmap f)) := by
  rw [rmap, h, rmap_children_eq_map]

/-- C1: `macro_try_match` succeeds with the capture sequence characterised by
the `Matches` relation — a `"_"` pattern matches any subject capturing it;
any other pattern requires equal `data` and equal child counts and matches
children positionally, concatenating captures left to right — and it returns
absent (`none`, the source's `null`) on any mismatch of data or arity. -/
theorem claim_C1 :
    (∀ (p t : syntax_tree) (caps : List syntax_tree),
        macro_try_match p t = some caps ↔ Matches p t caps) ∧
    (∀ (pd : String) (pcs : List syntax_tree) (td : String) (tcs : List syntax_tree),
        pd ≠ "_" → (pd ≠ td ∨ pcs.length ≠ tcs.length) →
        macro_try_match (.node pd pcs) (.node td tcs) = none) := by
  refine ⟨macro_try_match_iff, ?_⟩
  intro pd pcs td tcs h h2
  rw [macro_try_match, if_neg h, if_pos h2]

/-- Concrete instance of C1's mismatch clause: the hypotheses are satisfiable
(pattern `(f x)` against subject `(g x)` fails on data, and against `(f)`
fails on arity). -/
theorem claim_C1_witness :
    macro_try_match (.node "f" [.node "x" []]) (.node "g" [.node "x" []]) = none ∧
    macro_try_match (.node "f" [.node "x" []]) (.node "f" []) = none :=
  ⟨claim_C1.2 "f" [.node "x" []] "g" [.node "x" []] (by decide) (Or.inl (by decide)),
   claim_C1.2 "f" [.node "x" []] "f" [] (by decide) (Or.inr (by decide))⟩

/-- C2: in `macro_expand`, when the per-node scan produces a replacement
node distinct from the node it was applied to, that replacement appears in
the output verbatim — expansion does not descend into it — and descent into
children happens exactly at the nodes where no expander produced a
replacement. -/
theorem claim_C2 :
    (∀ (macros : List syntax_tree) (expanders : List (List syntax_tree → Option syntax_tree))
        (t n' : syntax_tree),
        macro_find macros expanders t = some n' → n' ≠ t →
        macro_expand t macros expanders = n') ∧
    (∀ (macros : List syntax_tree) (expanders : List (List syntax_tree → Option syntax_tree))
        (d : String) (cs : List syntax_tree),
        macro_find macros expanders (.node d cs) = none →
        macro_expand (.node d cs) macros expanders =
          .node d (cs.map fun c => macro_expand c macros expanders)) := by
  constructor
  · intro macros expanders t n' h _
    cases t with
    | node d cs => exact rmap_eq_some _ d cs n' h
  · intro macros expanders d cs h
    exact rmap_eq_none _ d cs h

/-- Concrete instance of C2: a single macro `_ → (y)` rewrites the root and
does not descend (the `x` child that would itself match is untouched inside
the replacement), and a non-matching registry leaves a node and maps its
children. -/
theorem claim_C2_witness :
    macro_expand (.node "x" [.node "x" []]) [.node "_" []]
        [fun caps => some (.node "y" caps)] = .node "y" [.node "x" [.node "x" []]] ∧
    macro_expand (.node "a" [.node "b" []]) [.node "z" []] [fun _ => some (.node "w" [])] =
      .node "a" [.node "b" []] :=
  ⟨claim_C2.1 [.node "_" []] [fun caps => some (.node "y" caps)]
      (.node "x" [.node "x" []]) (.node "y" [.node "x" [.node "x" []]]) rfl (by decide),
   claim_C2.2 [.node "z" []] [fun _ => some (.node "w" [])] "a" [.node "b" []] rfl⟩

/-- C3: the `(pattern, expander)` pairs are tried in registration order:
the per-node scan computes exactly the first yield of
`(macro_try_match pattern n).bind expander` over the zipped registry, a
matching pair whose expander returns falsy is skipped (not an error) with the
remaining pairs still tried, and a node where no pair yields a replacement is
kept with its children visited. -/
theorem claim_C3 :
    (∀ (macros : List syntax_tree) (expanders : List (List syntax_tree → Option syntax_tree))
        (n : syntax_tree),
        macro_find macros expanders n =
          (macros.zip expanders).findSome? fun pe => (macro_try_match pe.1 n).bind pe.2) ∧
    (∀ (m : syntax_tree) (ms : List syntax_tree)
        (e : List syntax_tree → Option syntax_tree)
        (es : List (List syntax_tree → Option syntax_tree)) (n : syntax_tree)
        (caps : List syntax_tree),
        macro_try_match m n = some caps → e caps = none →
        macro_find (m :: ms) (e :: es) n = macro_find ms es n) ∧
    (∀ (macros : List syntax_tree) (expanders : List (List syntax_tree → Option syntax_tree))
        (d : String) (cs : List syntax_tree),
        macro_find macros expanders (.node d cs) = none →
        macro_expand (.node d cs) macros expanders =
          .node d (cs.map fun c => macro_expand c macros expanders)) := by
  refine ⟨?_, ?_, ?_⟩
  · intro macros
    induction macros with
    | nil => intro expanders n; cases expanders <;> rfl
    | cons m ms ih =>
      intro expanders n
      cases expanders with
      | nil => rfl
      | cons e es =>
        rw [macro_find, List.zip_cons_cons, List.findSome?_cons]
        cases hm : macro_try_match m n with
        | none => simp [hm, ih es n]
        | some caps =>
          cases he : e caps with
          | none => simp [hm, he, ih es n]
          | some r => simp [hm, he]
  · intro m ms e es n caps h he
    rw [macro_find, h]
    simp [he]
  · intro macros expanders d cs h
    exact rmap_eq_none _ d cs h

/-- Concrete instance of C3: with two pairs both matching `x`, the first
expander returning falsy is skipped and the second pair's replacement is
used; the hypotheses of the skip clause are satisfiable. -/
theorem claim_C3_witness :
    macro_find [syntax_tree.node "_" [], syntax_tree.node "_" []]
        [fun _ => none, fun _ => some (.node "k" [])] (.node "x" []) =
      macro_find [syntax_tree.node "_" []] [fun _ => some (.node "k" [])] (.node "x" []) ∧
    macro_find [syntax_tree.node "_" []] [fun _ => some (.node "k" [])] (.node "x" []) =
      some (.node "k" []) :=
  ⟨claim_C3.2.1 (.node "_" []) [.node "_" []] (fun _ => none)
      [fun _ => some (.node "k" [])] (.node "x" []) [.node "x" []] rfl rfl,
   rfl⟩

mutual

/-- The substitution behaviour of the amended claim C4: every node (leaf or
not) whose `data` equals the key, encountered in preorder, is replaced by the
cyclically next entry of `xs` and its subtree is not traversed further;
other nodes keep their `data` and have their children processed left to
right.  The counter of already-performed replacements is threaded through. -/
def subst_nodes_spec (dat : String) (xs : List syntax_tree) :
    Nat → syntax_tree → Nat × syntax_tree
  | i, .node d cs =>
    if d = dat then (i + 1, xs.getD (i % xs.length) (.node d cs))
    else
      let r := subst_nodes_spec_list dat xs i cs
      (r.1, .node d r.2)

/-- Left-to-right traversal of children for `subst_nodes_spec`. -/
def subst_nodes_spec_list (dat : String) (xs : List syntax_tree) :
    Nat → List syntax_tree → Nat × List syntax_tree
  | i, [] => (i, [])
  | i, c :: cs =>
    let r := subst_nodes_spec dat xs i c
    let rs := subst_nodes_spec_list dat xs r.1 cs
    (rs.1, r.2 :: rs.2)

end

mutual

/-- The single-replacement behaviour of claim C4's last clause: every node
whose `data` equals the key is replaced by `x` uniformly (and, per the
code's cutoff, not traversed further). -/
def subst_single_spec (dat : String) (x : syntax_tree) : syntax_tree → syntax_tree
  | .node d cs =>
    if d = dat then x else .node d (subst_single_spec_list dat x cs)

/-- Children traversal for `subst_single_spec`. -/
def subst_single_spec_list (dat : String) (x : syntax_tree) :
    List syntax_tree → List syntax_tree
  | [] => []
  | c :: cs => subst_single_spec dat x c :: subst_single_spec_list dat x cs

end

mutual

/-- Claim C4 exactly as stated: only the successive *leaves* whose `data`
equals the key, in preorder, are replaced by the cyclically next entry of
`xs`; an interior node with that `data` is kept and traversed. -/
def subst_leaves_spec (dat : String) (xs : List syntax_tree) :
    Nat → syntax_tree → Nat × syntax_tree
  | i, .node d cs =>
    if d = dat ∧ cs = [] then (i + 1, xs.getD (i % xs.length) (.node d cs))
    else
      let r := subst_leaves_spec_list dat xs i cs
      (r.1, .node d r.2)

/-- Left-to-right traversal of children for `subst_leaves_spec`. -/
def subst_leaves_spec_list (dat : String) (xs : List syntax_tree) :
    Nat → List syntax_tree → Nat × List syntax_tree
  | i, [] => (i, [])
  | i, c :: cs =>
    let r := subst_leaves_spec dat xs i c
    let rs := subst_leaves_spec_list dat xs r.1 cs
    (rs.1, r.2 :: rs.2)

end

mutual

theorem rmapS_subst_eq_spec (dat : String) (xs : List syntax_tree) (hxs : xs ≠ []) :
    ∀ (i : Nat) (t : syntax_tree),
      rmapS (fun i n => if n.data = dat then (i + 1, xs[i % xs.length]?) else (i, none)) i t =
        subst_nodes_spec dat xs i t
  | i, .node d cs => by
    rw [rmapS, subst_nodes_spec]
    by_cases h : d = dat
    · subst h
      have hlt : i % xs.length < xs.length :=
        Nat.mod_lt _ (List.length_pos.mpr hxs)
      simp [data_node, List.getElem?_eq_getElem hlt, List.getD_eq_getElem?_getD]
    · simp only [data_node, if_neg h]
      rw [rmapS_children_subst_eq_spec dat xs hxs i cs]

theorem rmapS_children_subst_eq_spec (dat : String) (xs : List syntax_tree) (hxs : xs ≠ []) :
    ∀ (i : Nat) (cs : List syntax_tree),
      rmapS_children
          (fun i n => if n.data = dat then (i + 1, xs[i % xs.length]?) else (i, none)) i cs =
        subst_nodes_spec_list dat xs i cs
  | i, [] => by rw [rmapS_children, subst_nodes_spec_list]
  | i, c :: cs => by
    rw [rmapS_children, subst_nodes_spec_list]
    rw [rmapS_subst_eq_spec dat xs hxs i c]
    rw [rmapS_children_subst_eq_spec dat xs hxs (subst_nodes_spec dat xs i c).1 cs]

end

mutual

theorem rmap_single_eq_spec (dat : String) (x : syntax_tree) :
    ∀ t : syntax_tree,
      rmap (fun n => if n.data = dat then some x else none) t = subst_single_spec dat x t
  | .node d cs => by
    rw [rmap, subst_single_spec]
    by_cases h : d = dat
    · subst h
      simp [data_node]
    · simp only [data_node, if_neg h]
      rw [rmap_children_single_eq_spec dat x cs]

theorem rmap_children_single_eq_spec (dat : String) (x : syntax_tree) :
    ∀ cs : List syntax_tree,
      rmap_children (fun n => if n.data = dat then some x else none) cs =
        subst_single_spec_list dat x cs
  | [] => by rw [rmap_children, subst_single_spec_list]
  | c :: cs => by
    rw [rmap_children, subst_single_spec_list, rmap_single_eq_spec dat x c,
      rmap_children_single_eq_spec dat x cs]

end

/-- C4 (amended): `t.s(key, [a, b, c])` replaces the successive *nodes* —
leaves or interior nodes — whose `data` is the key, encountered in preorder
with descent cut off at each replaced node, by `a, b, c, a, …` cycling
modulo 3 (any non-empty replacement list cycles modulo its length); with a
single node as second argument, every such encountered node is replaced by
it uniformly.  The call never modifies `t`: the model is functional and `t`
is untouched by construction. -/
theorem claim_C4 :
    (∀ (dat : String) (xs : List syntax_tree) (t : syntax_tree), xs ≠ [] →
        s_list dat xs t = (subst_nodes_spec dat xs 0 t).2) ∧
    (∀ (dat : String) (x : syntax_tree) (t : syntax_tree),
        s_single dat x t = subst_single_spec dat x t) := by
  constructor
  · intro dat xs t hxs
    rw [s_list, rmapS_subst_eq_spec dat xs hxs 0 t]
  · intro dat x t
    rw [s_single, rmap_single_eq_spec dat x t]

/-- Concrete instance of C4's amended statement: four `_` nodes replaced
cycling modulo 3, with the root-level interior `_` node also replaced. -/
theorem claim_C4_witness :
    s_list "_" [.node "a" [], .node "b" [], .node "c" []]
        (.node "+" [.node "_" [], .node "_" [], .node "_" [], .node "_" []]) =
      (subst_nodes_spec "_" [.node "a" [], .node "b" [], .node "c" []] 0
        (.node "+" [.node "_" [], .node "_" [], .node "_" [], .node "_" []])).2 ∧
    s_list "_" [.node "a" [], .node "b" [], .node "c" []]
        (.node "+" [.node "_" [], .node "_" [], .node "_" [], .node "_" []]) =
      .node "+" [.node "a" [], .node "b" [], .node "c" [], .node "a" []] :=
  ⟨claim_C4.1 "_" [.node "a" [], .node "b" [], .node "c" []]
      (.node "+" [.node "_" [], .node "_" [], .node "_" [], .node "_" []]) (by decide),
   rfl⟩

/-- Counterexample to C4 as stated: the source replaces every node whose
`data` matches, not only leaves.  On `t = ("_" ("x"))` — an interior node
with data `"_"` whose only leaf is `"x"` — the claim's reading (replace the
successive matching *leaves*; here there are none) leaves `t` unchanged,
but `t.s("_", [a, b, c])` replaces the whole tree by `a`. -/
theorem claim_C4_counterexample :
    s_list "_" [.node "a" [], .node "b" [], .node "c" []] (.node "_" [.node "x" []]) ≠
      (subst_leaves_spec "_" [.node "a" [], .node "b" [], .node "c" []] 0
        (.node "_" [.node "x" []])).2 ∧
    s_list "_" [.node "a" [], .node "b" [], .node "c" []] (.node "_" [.node "x" []]) =
      .node "a" [] ∧
    (subst_leaves_spec "_" [.node "a" [], .node "b" [], .node "c" []] 0
        (.node "_" [.node "x" []])).2 = .node "_" [.node "x" []] :=
  ⟨by decide, rfl, rfl⟩

/-!
## Arena model

The lexer and parser of caterwaul.js work on mutable nodes carrying sibling
(`l`, `r`) and parent (`p`) links, and `map`/`rmap`/`flatten` allocate new
nodes whose identity (JavaScript `===`) matters.  Nodes are therefore
modelled as records in an arena (an array indexed by allocation order);
a JavaScript object reference becomes an arena index, `null`/`undefined`
becomes `none`, and every mutating method becomes a function on the arena. -/

/-- In-place update of the `i`-th entry of a list (a no-op out of range);
the model of a JavaScript indexed assignment. -/
def lset : List α → Nat → α → List α
  | [], _, _ => []
  | _ :: xs, 0, v => v :: xs
  | x :: xs, n + 1, v => x :: lset xs n v

theorem lset_length : ∀ (xs : List α) (i : Nat) (v : α), (lset xs i v).length = xs.length
  | [], _, _ => rfl
  | _ :: xs, 0, _ => rfl
  | _ :: xs, n + 1, v => by simp [lset, lset_length xs n v]

theorem getD_lset_ne : ∀ (xs : List α) (i j : Nat) (v d : α), j ≠ i →
    (lset xs i v).getD j d = xs.getD j d
  | [], _, _, _, _, _ => rfl
  | _ :: xs, 0, 0, v, d, h => absurd rfl h
  | _ :: xs, 0, j + 1, v, d, _ => rfl
  | _ :: xs, n + 1, 0, v, d, _ => rfl
  | _ :: xs, n + 1, j + 1, v, d, h =>
    getD_lset_ne xs n j v d (by omega)

theorem getD_append_left : ∀ (xs ys : List α) (j : Nat) (d : α), j < xs.length →
    (xs ++ ys).getD j d = xs.getD j d
  | [], _, _, _, h => absurd h (by simp)
  | x :: xs, ys, 0, d, _ => rfl
  | x :: xs, ys, j + 1, d, h => getD_append_left xs ys j d (by simpa using h)

/-- The linked form of `syntax_node` (caterwaul.js line 159): `data`, the
indexed children (entries can be `null`, e.g. after a `fold_l` with no left
sibling), and the `l`/`r`/`p` links. -/
structure JSNode where
  data : String
  children : List (Option Nat)
  l : Option Nat
  r : Option Nat
  p : Option Nat
deriving Repr, DecidableEq

/-- The default node: what an unallocated index reads as (never reached on
well-formed states; it keeps the accessors total). -/
def defNode : JSNode := ⟨"", [], none, none, none⟩

/-- The node arena: a total map from allocation indices to node records plus
the number of allocated nodes.  A function rather than a list so that
reading one node costs one comparison per elapsed mutation. -/
structure Arena where
  nodes : Nat → JSNode
  size : Nat

namespace Arena

/-- The arena holding the nodes of `ns`, indexed in order. -/
def ofList (ns : List JSNode) : Arena := ⟨fun j => ns.getD j defNode, ns.length⟩

/-- Read the node at index `i`. -/
def getN (a : Arena) (i : Nat) : JSNode := a.nodes i

/-- Write the node at index `i`. -/
def setN (a : Arena) (i : Nat) (n : JSNode) : Arena :=
  { a with nodes := fun j => if j = i then n else a.nodes j }

/-- Update the node at index `i` in place. -/
def modifyN (a : Arena) (i : Nat) (f : JSNode → JSNode) : Arena :=
  a.setN i (f (a.getN i))

/-- `new syntax_node(data)` with no children: append a fresh node, whose
index is the previous arena size. -/
def alloc (a : Arena) (d : String) : Arena :=
  ⟨fun j => if j = a.size then ⟨d, [], none, none, none⟩ else a.nodes j, a.size + 1⟩

/-- `append` (caterwaul.js line 166): `(this[this.length++] = x) && (x.p =
this)` — push the child (even a null one) and, when it is a node, set its
parent pointer. -/
def nappend (a : Arena) (t : Nat) (x : Option Nat) : Arena :=
  let a1 := a.modifyN t fun n => { n with children := n.children ++ [x] }
  match x with
  | some xi => a1.modifyN xi fun n => { n with p := some t }
  | none => a1

/-- `append_to` (line 164): `x && x.append(this)`. -/
def nappend_to (a : Arena) (t : Nat) (x : Option Nat) : Arena :=
  match x with
  | some xi => nappend a xi (some t)
  | none => a

/-- `push` (line 168): `(this[this.length++] = x)` — like `append` but the
pushed node's parent pointer is deliberately left untouched (the post-fold
tree form shares subtrees and keeps no parent links). -/
def npush (a : Arena) (t : Nat) (x : Option Nat) : Arena :=
  a.modifyN t fun n => { n with children := n.children ++ [x] }

/-- `pop` (line 168): `--this.length`. -/
def npop (a : Arena) (t : Nat) : Arena :=
  a.modifyN t fun n => { n with children := n.children.dropLast }

/-- `sibling` (line 167): `x.p = this.p, (this.r = x).l = this`. -/
def nsibling (a : Arena) (t x : Nat) : Arena :=
  let a1 := a.modifyN x fun n => { n with p := (a.getN t).p }
  let a2 := a1.modifyN t fun n => { n with r := some x }
  a2.modifyN x fun n => { n with l := some t }

/-- `reparent` (line 165): `this.p && this.p[0] === this && (this.p[0] = x)`. -/
def nreparent (a : Arena) (t : Nat) (x : Option Nat) : Arena :=
  match (a.getN t).p with
  | some pi =>
    if (a.getN pi).children.getD 0 none = some t then
      a.modifyN pi fun n => { n with children := lset n.children 0 x }
    else a
  | none => a

/-- `replace` (line 164): `(x.l = this.l) && (this.l.r = x), (x.r = this.r)
&& (this.r.l = x)` — splice `x` into this node's ribbon position. -/
def nreplace (a : Arena) (t x : Nat) : Arena :=
  let a1 := a.modifyN x fun n => { n with l := (a.getN t).l }
  let a2 := match (a1.getN t).l with
    | some li => a1.modifyN li fun n => { n with r := some x }
    | none => a1
  let a3 := a2.modifyN x fun n => { n with r := (a2.getN t).r }
  match (a3.getN t).r with
  | some ri => a3.modifyN ri fun n => { n with l := some x }
  | none => a3

/-- `unlink` (line 167): splice this node out of the ribbon, clear its
`l`/`r`, and hand its parent's first-child slot to `x` via `reparent`. -/
def nunlink (a : Arena) (t x : Nat) : Arena :=
  let a1 := match (a.getN t).l with
    | some li => a.modifyN li fun n => { n with r := (a.getN t).r }
    | none => a
  let a2 := match (a1.getN t).r with
    | some ri => a1.modifyN ri fun n => { n with l := (a1.getN t).l }
    | none => a1
  let a3 := a2.modifyN t fun n => { n with l := none, r := none }
  nreparent a3 t (some x)

/-- `wrap` (line 168): `x.p = this.replace(x).p, this.reparent(x), this.l =
this.r = null, this.append_to(x)` — replace this node by `x` in the ribbon
and become `x`'s child. -/
def nwrap (a : Arena) (t x : Nat) : Arena :=
  let a1 := nreplace a t x
  let a2 := a1.modifyN x fun n => { n with p := (a1.getN t).p }
  let a3 := nreparent a2 t (some x)
  let a4 := a3.modifyN t fun n => { n with l := none, r := none }
  nappend a4 x (some t)

/-- `fold_l` (line 165): `this.append(this.l && this.l.unlink(this))`. -/
def nfold_l (a : Arena) (t : Nat) : Arena :=
  match (a.getN t).l with
  | some li => nappend (nunlink a li t) t (some li)
  | none => nappend a t none

/-- `fold_r` (line 166): `this.append(this.r && this.r.unlink(this))`. -/
def nfold_r (a : Arena) (t : Nat) : Arena :=
  match (a.getN t).r with
  | some ri => nappend (nunlink a ri t) t (some ri)
  | none => nappend a t none

/-- `fold_lr` (line 165): `this.fold_l().fold_r()`. -/
def nfold_lr (a : Arena) (t : Nat) : Arena := nfold_r (nfold_l a t) t

end Arena

/-!
## Token classification tables (caterwaul.js lines 337-365)

`hash(s)` in the source splits `s` on whitespace and builds a set keyed by
the words, remembering the longest key so that `has` can reject longer
candidates in O(1); that is a pure optimisation (a candidate longer than the
longest key is never a member), so the sets are modelled as word lists in the
source's order with plain membership.  `has(o, p)` is falsy for the empty
string (`p &&`), which the model keeps. -/

/-- Set membership, as `has` (caterwaul.js line 102): false for `""`. -/
def has_str (tbl : List String) (p : String) : Bool := p ≠ "" && tbl.contains p

/-- Lookup in a valued table (an `annotate_keys`'d object literal). -/
def tbl_lookup (tbl : List (String × α)) (p : String) : Option α :=
  if p = "" then none else (tbl.find? (·.1 = p)).map (·.2)

/-- `lex_op` (lines 337-338). -/
def lex_op : List String :=
  [".", "new", "++", "--", "u++", "u--", "u+", "u-", "typeof", "u~", "u!", "!", "*", "/", "%",
   "+", "-", "<<", ">>", ">>>", "<", ">", "<=", ">=", "instanceof", "in", "==", "!=", "===",
   "!==", "&", "^", "|", "&&", "||", "?", "=", "+=", "-=", "*=", "/=", "%=", "&=", "|=", "^=",
   "<<=", ">>=", ">>>=", ":", ",", "return", "throw", "case", "var", "const", "break",
   "continue", "void", "else", "u;", ";"]

/-- `lex_table` builds a character-code indexed boolean array; the model
keeps the character-code list and uses membership. -/
def lex_table (s : String) : List Nat := s.data.map Char.toNat

def lex_float : List Nat := lex_table ".0123456789"
def lex_decimal : List Nat := lex_table "0123456789"
def lex_integer : List Nat := lex_table "0123456789abcdefABCDEFx"
def lex_exp : List Nat := lex_table "eE"
def lex_space : List Nat := lex_table " \n\r\t"
def lex_bracket : List Nat := lex_table "()[]{}"
def lex_opener : List Nat := lex_table "([\x7b"
def lex_punct : List Nat := lex_table "+-*/%&|^!~=<>?:;.,"
def lex_eol : List Nat := lex_table "\n\r"
def lex_regexp_suffix : List Nat := lex_table "gims"
def lex_quote : List Nat := lex_table "'\"/"
def lex_slash : Nat := '/'.toNat
def lex_star : Nat := '*'.toNat
def lex_back : Nat := '\\'.toNat
def lex_x : Nat := 'x'.toNat
def lex_dot : Nat := '.'.toNat
def lex_zero : Nat := '0'.toNat
def lex_postfix_unary : List String := ["++", "--"]
def lex_ident : List Nat :=
  lex_table "$_abcdefghijklmnopqrstuvwxyzABCDEFGHIJKLMNOPQRSTUVWXYZ0123456789"

/-- `parse_reduce_order` (lines 351-353): the precedence groups from highest
to lowest; position is the reduce index. -/
def parse_reduce_order : List (List String) :=
  [["function"],
   ["(", "[", ".", "[]", "()"],
   ["new"],
   ["u++", "u--", "++", "--", "typeof", "u~", "u!", "u+", "u-"],
   ["*", "/", "%"],
   ["+", "-"],
   ["<<", ">>", ">>>"],
   ["<", ">", "<=", ">=", "instanceof", "in"],
   ["==", "!=", "===", "!=="],
   ["&"], ["^"], ["|"], ["&&"], ["||"],
   ["case"],
   ["?"],
   ["=", "+=", "-=", "*=", "/=", "%=", "&=", "|=", "^=", "<<=", ">>=", ">>>="],
   [":"], [","],
   ["return", "throw", "break", "continue", "delete", "void"],
   ["var", "const"],
   ["if", "else", "try", "catch", "finally", "for", "switch", "with", "while", "do"],
   [";"]]

/-- `parse_associates_right` (line 355). -/
def parse_associates_right : List String :=
  ["=", "+=", "-=", "*=", "/=", "%=", "&=", "^=", "|=", "<<=", ">>=", ">>>=", "~", "!", "new",
   "typeof", "u+", "u-", "--", "++", "u--", "u++", "?", "if", "else", "function", "try",
   "catch", "finally", "for", "switch", "case", "with", "while", "do"]

/-- `parse_inverse_order` (line 356): token → reduce-index.  Each token
occurs in one group, so the source's last-write-wins fold is the first (and
only) group containing it. -/
def parse_inverse_order (t : String) : Option Nat :=
  if t = "" then none else parse_reduce_order.findIdx? (·.contains t)

/-- `parse_index_forward` (lines 357-358): a group folds left-to-right
exactly when its first token is not right-associative (the source's loop
breaks after deciding on the first key). -/
def parse_index_forward : List Bool :=
  parse_reduce_order.map fun g => ! parse_associates_right.contains (g.headD "")

/-- `parse_lr` (line 360). -/
def parse_lr : List String :=
  ["[]", ".", "()", "*", "/", "%", "+", "-", "<<", ">>", ">>>", "<", ">", "<=", ">=",
   "instanceof", "in", "==", "!=", "===", "!==", "&", "^", "|", "&&", "||", "=", "+=", "-=",
   "*=", "/=", "%=", "&=", "|=", "^=", "<<=", ">>=", ">>>=", ",", ":", ";"]

/-- `parse_r_until_block` (line 361): keyword → maximum pre-block right
folds. -/
def parse_r_until_block : List (String × Nat) :=
  [("function", 2), ("if", 1), ("do", 1), ("catch", 1), ("try", 1), ("for", 1), ("while", 1),
   ("with", 1)]

/-- `parse_accepts` (line 362): block construct → accepted continuation. -/
def parse_accepts : List (String × String) :=
  [("if", "else"), ("do", "while"), ("catch", "finally"), ("try", "catch")]

def parse_invocation : List String := ["[]", "()"]
def parse_r_optional : List String := ["return", "throw", "break", "continue", "else"]
def parse_l : List String := ["++", "--"]
def parse_r : List String :=
  ["u+", "u-", "u!", "u~", "u++", "u--", "new", "typeof", "finally", "var", "const", "void",
   "delete"]
def parse_block : List String := [";", "\x7b"]

/-- `parse_group` (line 364): opener → closer. -/
def parse_group : List (String × String) := [("(", ")"), ("[", "]"), ("\x7b", "\x7d"), ("?", ":")]

def parse_invisible : List String := ["i;"]
def parse_ambiguous_group : List String := ["[", "("]
def parse_ternary : List String := ["?"]
def parse_not_a_value : List String := ["function", "if", "for", "while", "catch"]
def parse_also_expression : List String := ["function"]

namespace Arena

/-- `map` (caterwaul.js line 195) on the arena: allocate a fresh node with
this node's `data`, then for each child index push `f(this[i], i) ||
this[i]` onto it with `push` — which, unlike `append`, does not touch the
pushed node's parent pointer.  The callback threads the arena so that a
recursive caller (`rmap`) can allocate during the traversal. -/
def nmap (a : Arena) (t : Nat) (f : Arena → Option Nat → Nat → Arena × Option Nat) :
    Arena × Nat :=
  let m := a.size
  let a1 := a.alloc (a.getN t).data
  let len := (a.getN t).children.length
  let a2 := (List.range len).foldl
    (fun acc i =>
      let ci := (acc.getN t).children.getD i none
      let fr := f acc ci i
      npush fr.1 m (fr.2 <|> ci))
    a1
  (a2, m)

/-- `rmap` (line 197) on the arena: `r = f(this); !r || r === this ?
this.map(n => n && n.rmap(f)) : r`.  Here `r === this` is honest reference
equality (arena indices).  `fuel` bounds the recursion depth; it is spent
only on descent, so any value at least the arena size is enough for
tree-shaped data. -/
def nrmap (f : Arena → Nat → Arena × Option Nat) :
    Nat → Arena → Nat → Arena × Nat
  | 0, a, t => (a, t)
  | fuel + 1, a, t =>
    match (f a t).2 with
    | some r =>
      if r = t then
        nmap (f a t).1 t fun acc c _ =>
          match c with
          | some ci => ((nrmap f fuel acc ci).1, some (nrmap f fuel acc ci).2)
          | none => (acc, none)
      else ((f a t).1, r)
    | none =>
      nmap (f a t).1 t fun acc c _ =>
        match c with
        | some ci => ((nrmap f fuel acc ci).1, some (nrmap f fuel acc ci).2)
        | none => (acc, none)

/-- The collection loop of `flatten`'s right-associative path (line 227):
`for (var i = this; i && i.data === d; i = i[1]) n.push(i[0]); n.push(i)`.
`fuel` totalises a chain that cycles (where the source would loop forever);
`none` models that divergence. -/
def flatten_right_loop (n : Nat) (d : String) :
    Nat → Arena → Option Nat → Option Arena
  | 0, _, _ => none
  | fuel + 1, a, some ii =>
    if (a.getN ii).data = d then
      let a1 := npush a n ((a.getN ii).children.getD 0 none)
      flatten_right_loop n d fuel a1 ((a1.getN ii).children.getD 1 none)
    else some (npush a n (some ii))
  | _ + 1, a, none => some (npush a n none)

/-- The collection loop of `flatten`'s left-associative path (line 228):
`for (var i = this, ns = []; i.data === d; i = i[0]) i[1] && ns.push(i[1]);
ns.push(i)`.  The loop reads `i.data` without a null check, so a missing
child 0 on the chain is a null dereference (a thrown TypeError in the
source), modelled as `.error`; fuel exhaustion (a cyclic chain, where the
source loops forever) is `.error` with a distinct message. -/
def flatten_left_loop (d : String) :
    Nat → Arena → List Nat → Option Nat → Except String (List Nat)
  | 0, _, _, _ => .error "flatten: cyclic chain (the source would not terminate)"
  | _ + 1, _, _, none => .error "flatten: null dereference reading data of a missing child"
  | fuel + 1, a, ns, some ii =>
    if (a.getN ii).data = d then
      let ns1 := match (a.getN ii).children.getD 1 none with
        | some c1 => ns ++ [c1]
        | none => ns
      flatten_left_loop d fuel a ns1 ((a.getN ii).children.getD 0 none)
    else .ok (ns ++ [ii])

/-- `flatten` (caterwaul.js lines 226-229) on the arena.  When this node's
`data` is not a left/right-associative binary operator or it has no
children, the node itself is returned and nothing is allocated; otherwise a
fresh node is allocated and the associativity chain's operands are pushed
onto it, left to right. -/
def flatten (a : Arena) (t : Nat) : Except String (Arena × Nat) :=
  let d := (a.getN t).data
  if ¬(has_str parse_lr d ∧ (a.getN t).children.length ≠ 0) then .ok (a, t)
  else
    let m := a.size
    let a1 := a.alloc d
    if has_str parse_associates_right d then
      match flatten_right_loop m d (a.size + 1) a1 (some t) with
      | some a2 => .ok (a2, m)
      | none => .error "flatten: cyclic chain (the source would not terminate)"
    else
      match flatten_left_loop d (a.size + 1) a1 [] (some t) with
      | .error e => .error e
      | .ok ns => .ok (ns.reverse.foldl (fun acc c => npush acc m (some c)) a1, m)

end Arena

namespace Arena

theorem size_setN (a : Arena) (i : Nat) (n : JSNode) : (a.setN i n).size = a.size := rfl

theorem size_modifyN (a : Arena) (i : Nat) (f : JSNode → JSNode) :
    (a.modifyN i f).size = a.size := rfl

theorem size_alloc (a : Arena) (d : String) : (a.alloc d).size = a.size + 1 := rfl

theorem getN_setN_ne (a : Arena) (i j : Nat) (n : JSNode) (h : j ≠ i) :
    (a.setN i n).getN j = a.getN j := by
  simp only [setN, getN, if_neg h]

theorem getN_modifyN_ne (a : Arena) (i j : Nat) (f : JSNode → JSNode) (h : j ≠ i) :
    (a.modifyN i f).getN j = a.getN j := getN_setN_ne _ _ _ _ h

theorem getN_alloc (a : Arena) (d : String) (j : Nat) (h : j < a.size) :
    (a.alloc d).getN j = a.getN j := by
  simp only [alloc, getN]
  rw [if_neg (by omega)]

theorem getN_npush_ne (a : Arena) (t j : Nat) (x : Option Nat) (h : j ≠ t) :
    (npush a t x).getN j = a.getN j := getN_modifyN_ne _ _ _ _ h

theorem size_npush (a : Arena) (t : Nat) (x : Option Nat) : (npush a t x).size = a.size :=
  size_modifyN ..

end Arena

/-- Invariant preservation through a left fold. -/
theorem foldl_inv {β γ : Type _} {P : β → Prop} (step : β → γ → β)
    (hstep : ∀ acc x, P acc → P (step acc x)) :
    ∀ (xs : List γ) (acc : β), P acc → P (xs.foldl step acc)
  | [], _, h => h
  | x :: xs, acc, h => foldl_inv step hstep xs (step acc x) (hstep acc x h)

namespace Arena

/-- `map` allocates one node and pushes onto it; every pre-existing node is
untouched, provided the callback itself only extends the arena. -/
theorem nmap_frame (a : Arena) (t : Nat) (f : Arena → Option Nat → Nat → Arena × Option Nat)
    (hfr : ∀ (acc : Arena) (c : Option Nat) (i j : Nat), j < acc.size →
      (f acc c i).1.getN j = acc.getN j)
    (hmo : ∀ (acc : Arena) (c : Option Nat) (i : Nat), acc.size ≤ (f acc c i).1.size) :
    (∀ j, j < a.size → (nmap a t f).1.getN j = a.getN j) ∧
      a.size ≤ (nmap a t f).1.size ∧ (nmap a t f).2 = a.size := by
  rw [nmap]
  have inv := @foldl_inv Arena Nat
    (fun acc => (∀ j, j < a.size → acc.getN j = a.getN j) ∧ a.size ≤ acc.size)
    (fun acc i =>
      npush (f acc ((acc.getN t).children.getD i none) i).1 a.size
        ((f acc ((acc.getN t).children.getD i none) i).2 <|>
          (acc.getN t).children.getD i none))
    (fun acc i hacc => by
      obtain ⟨hg, hs⟩ := hacc
      constructor
      · intro j hj
        rw [getN_npush_ne _ _ _ _ (by omega)]
        rw [hfr acc _ i j (by omega), hg j hj]
      · rw [size_npush]
        exact le_trans hs (hmo acc _ i))
    (List.range (a.getN t).children.length)
    (a.alloc (a.getN t).data)
    ⟨fun j hj => getN_alloc a _ j hj, by rw [size_alloc]; omega⟩
  exact ⟨inv.1, inv.2, rfl⟩

end Arena

namespace Arena

/-- `rmap` on the arena likewise never writes to a pre-existing node — it
only allocates — provided the callback only extends the arena. -/
theorem nrmap_frame (f : Arena → Nat → Arena × Option Nat)
    (hfr : ∀ (acc : Arena) (n j : Nat), j < acc.size → (f acc n).1.getN j = acc.getN j)
    (hmo : ∀ (acc : Arena) (n : Nat), acc.size ≤ (f acc n).1.size) :
    ∀ (fuel : Nat) (a : Arena) (t : Nat),
      (∀ j, j < a.size → (nrmap f fuel a t).1.getN j = a.getN j) ∧
        a.size ≤ (nrmap f fuel a t).1.size
  | 0, a, t => ⟨fun _ _ => rfl, le_refl _⟩
  | fuel + 1, a, t => by
    rw [nrmap]
    have hcb_fr : ∀ (acc : Arena) (c : Option Nat) (i j : Nat), j < acc.size →
        ((fun (acc : Arena) (c : Option Nat) (_ : Nat) =>
          match c with
          | some ci => ((nrmap f fuel acc ci).1, some (nrmap f fuel acc ci).2)
          | none => (acc, none)) acc c i).1.getN j = acc.getN j := by
      intro acc c i j hj
      cases c with
      | some ci => exact (nrmap_frame f hfr hmo fuel acc ci).1 j hj
      | none => rfl
    have hcb_mo : ∀ (acc : Arena) (c : Option Nat) (i : Nat), acc.size ≤
        ((fun (acc : Arena) (c : Option Nat) (_ : Nat) =>
          match c with
          | some ci => ((nrmap f fuel acc ci).1, some (nrmap f fuel acc ci).2)
          | none => (acc, none)) acc c i).1.size := by
      intro acc c i
      cases c with
      | some ci => exact (nrmap_frame f hfr hmo fuel acc ci).2
      | none => exact le_refl _
    split
    next r hv =>
      by_cases hr : r = t
      · rw [if_pos hr]
        have hm := nmap_frame (f a t).1 t _ hcb_fr hcb_mo
        constructor
        · intro j hj
          rw [hm.1 j (by have := hmo a t; omega), hfr a t j hj]
        · exact le_trans (hmo a t) hm.2.1
      · rw [if_neg hr]
        exact ⟨fun j hj => hfr a t j hj, hmo a t⟩
    next hv =>
      have hm := nmap_frame (f a t).1 t _ hcb_fr hcb_mo
      constructor
      · intro j hj
        rw [hm.1 j (by have := hmo a t; omega), hfr a t j hj]
      · exact le_trans (hmo a t) hm.2.1

end Arena

/-- C9 (amended): `map` and `rmap` build the output node with `push`, which
does not assign parent pointers; they never write to any pre-existing node
at all (they only allocate), so a replacement node returned by the mapping
function keeps whatever parent pointer it had before — no reparenting is
performed. -/
theorem claim_C9 :
    (∀ (a : Arena) (t : Nat) (f : Arena → Option Nat → Nat → Arena × Option Nat),
      (∀ (acc : Arena) (c : Option Nat) (i j : Nat), j < acc.size →
        (f acc c i).1.getN j = acc.getN j) →
      (∀ (acc : Arena) (c : Option Nat) (i : Nat), acc.size ≤ (f acc c i).1.size) →
      ∀ j, j < a.size → (Arena.nmap a t f).1.getN j = a.getN j) ∧
    (∀ (f : Arena → Nat → Arena × Option Nat),
      (∀ (acc : Arena) (n j : Nat), j < acc.size → (f acc n).1.getN j = acc.getN j) →
      (∀ (acc : Arena) (n : Nat), acc.size ≤ (f acc n).1.size) →
      ∀ (fuel : Nat) (a : Arena) (t : Nat) (j : Nat), j < a.size →
        (Arena.nrmap f fuel a t).1.getN j = a.getN j) :=
  ⟨fun a t f hfr hmo => (Arena.nmap_frame a t f hfr hmo).1,
   fun f hfr hmo fuel a t j hj => (Arena.nrmap_frame f hfr hmo fuel a t).1 j hj⟩

/-- Concrete instance of C9's amended statement: mapping the one-child node
`P` (index 2) over an arena, replacing its child `x` (index 0) by `q`
(index 1), leaves all three pre-existing nodes — including the replacement
`q` and its `p` field — exactly as they were. -/
theorem claim_C9_witness :
    (Arena.nmap (Arena.ofList [⟨"x", [], none, none, none⟩, ⟨"q", [], none, none, none⟩,
        ⟨"P", [some 0], none, none, none⟩]) 2
        (fun a c _ => (a, if c = some 0 then some 1 else none))).1.getN 1 =
      Arena.getN (Arena.ofList [⟨"x", [], none, none, none⟩, ⟨"q", [], none, none, none⟩,
        ⟨"P", [some 0], none, none, none⟩]) 1 :=
  claim_C9.1 (Arena.ofList [⟨"x", [], none, none, none⟩, ⟨"q", [], none, none, none⟩,
      ⟨"P", [some 0], none, none, none⟩]) 2
    (fun a c _ => (a, if c = some 0 then some 1 else none))
    (fun _ _ _ _ _ => rfl) (fun _ _ _ => le_refl _) 1 (by decide)

/-- Counterexample to C9 as stated: mapping the node `P` (index 2) with a
function that replaces its child `x` (index 0) by the node `q` (index 1)
produces a new node (index 3) containing `q` as its child, but `q`'s parent
pointer is still `none`, not the new node — and `rmap` behaves the same
way.  `map`/`rmap` use `push` (line 168), which deliberately does not set
`p`; the "Reparenting is done automatically" comment (line 186) describes
`append`, not `push`. -/
theorem claim_C9_counterexample :
    ((Arena.nmap (Arena.ofList [⟨"x", [], none, none, none⟩, ⟨"q", [], none, none, none⟩,
        ⟨"P", [some 0], none, none, none⟩]) 2
        (fun a c _ => (a, if c = some 0 then some 1 else none))).2 = 3 ∧
      ((Arena.nmap (Arena.ofList [⟨"x", [], none, none, none⟩, ⟨"q", [], none, none, none⟩,
        ⟨"P", [some 0], none, none, none⟩]) 2
        (fun a c _ => (a, if c = some 0 then some 1 else none))).1.getN 3).children =
        [some 1] ∧
      ((Arena.nmap (Arena.ofList [⟨"x", [], none, none, none⟩, ⟨"q", [], none, none, none⟩,
        ⟨"P", [some 0], none, none, none⟩]) 2
        (fun a c _ => (a, if c = some 0 then some 1 else none))).1.getN 1).p ≠ some 3) ∧
    ((Arena.nrmap (fun a n => (a, if n = 0 then some 1 else none)) 4
        (Arena.ofList [⟨"x", [], none, none, none⟩, ⟨"q", [], none, none, none⟩,
          ⟨"P", [some 0], none, none, none⟩]) 2).2 = 3 ∧
      ((Arena.nrmap (fun a n => (a, if n = 0 then some 1 else none)) 4
        (Arena.ofList [⟨"x", [], none, none, none⟩, ⟨"q", [], none, none, none⟩,
          ⟨"P", [some 0], none, none, none⟩]) 2).1.getN 3).children = [some 1] ∧
      ((Arena.nrmap (fun a n => (a, if n = 0 then some 1 else none)) 4
        (Arena.ofList [⟨"x", [], none, none, none⟩, ⟨"q", [], none, none, none⟩,
          ⟨"P", [some 0], none, none, none⟩]) 2).1.getN 1).p ≠ some 3) := by
  decide

namespace Arena

theorem flatten_right_loop_frame (m : Nat) (d : String) :
    ∀ (fuel : Nat) (a : Arena) (i : Option Nat) (a2 : Arena),
      flatten_right_loop m d fuel a i = some a2 →
      ∀ j, j ≠ m → a2.getN j = a.getN j
  | 0, _, _, _, h => by simp [flatten_right_loop] at h
  | fuel + 1, a, some ii, a2, h => by
    rw [flatten_right_loop] at h
    by_cases hd : (a.getN ii).data = d
    · rw [if_pos hd] at h
      intro j hj
      rw [flatten_right_loop_frame m d fuel _ _ a2 h j hj]
      exact getN_npush_ne _ _ _ _ hj
    · rw [if_neg hd] at h
      injection h with h
      subst h
      intro j hj
      exact getN_npush_ne _ _ _ _ hj
  | fuel + 1, a, none, a2, h => by
    rw [flatten_right_loop] at h
    injection h with h
    subst h
    intro j hj
    exact getN_npush_ne _ _ _ _ hj

theorem foldl_npush_frame (m : Nat) :
    ∀ (cs : List Nat) (a : Arena) (j : Nat), j ≠ m →
      (cs.foldl (fun acc c => npush acc m (some c)) a).getN j = a.getN j
  | [], _, _, _ => rfl
  | c :: cs, a, j, h => by
    rw [List.foldl_cons, foldl_npush_frame m cs _ j h]
    exact getN_npush_ne _ _ _ _ h

end Arena

/-- C10 (amended): `flatten` never modifies any existing node — in
particular `t` is exactly as before the call; it returns `t` itself (and
allocates nothing) when `t`'s `data` is not a left/right-associative binary
operator of the `parse_lr` set or `t` has no children; otherwise, when it
returns at all, the result is the newly allocated node (the old arena size),
hence distinct from any pre-existing node.  It does not always return in
that case: on a chain whose left spine has a missing child — such as the
tree the parser builds for `";x"` — the left-associative path dereferences
null and throws. -/
theorem claim_C10 :
    (∀ (a : Arena) (t : Nat),
      ¬(has_str parse_lr (a.getN t).data ∧ (a.getN t).children.length ≠ 0) →
      Arena.flatten a t = .ok (a, t)) ∧
    (∀ (a : Arena) (t : Nat) (a' : Arena) (r : Nat),
      Arena.flatten a t = .ok (a', r) →
      ∀ j, j < a.size → a'.getN j = a.getN j) ∧
    (∀ (a : Arena) (t : Nat) (a' : Arena) (r : Nat),
      (has_str parse_lr (a.getN t).data ∧ (a.getN t).children.length ≠ 0) →
      Arena.flatten a t = .ok (a', r) → r = a.size) := by
  refine ⟨?_, ?_, ?_⟩
  · intro a t h
    rw [Arena.flatten, if_pos h]
  · intro a t a' r h j hj
    rw [Arena.flatten] at h
    by_cases hc : has_str parse_lr (a.getN t).data ∧ (a.getN t).children.length ≠ 0
    · rw [if_neg (not_not_intro hc)] at h
      by_cases hr : has_str parse_associates_right (a.getN t).data = true
      · rw [if_pos hr] at h
        cases hl : Arena.flatten_right_loop a.size (a.getN t).data (a.size + 1)
            (a.alloc (a.getN t).data) (some t) with
        | some a2 =>
          simp only [hl, Except.ok.injEq, Prod.mk.injEq] at h
          obtain ⟨rfl, -⟩ := h
          rw [Arena.flatten_right_loop_frame _ _ _ _ _ _ hl j (by omega)]
          exact Arena.getN_alloc a _ j hj
        | none => simp only [hl, reduceCtorEq] at h
      · rw [if_neg hr] at h
        cases hl : Arena.flatten_left_loop (a.getN t).data (a.size + 1)
            (a.alloc (a.getN t).data) [] (some t) with
        | error e => simp only [hl, reduceCtorEq] at h
        | ok ns =>
          simp only [hl, Except.ok.injEq, Prod.mk.injEq] at h
          obtain ⟨rfl, -⟩ := h
          rw [Arena.foldl_npush_frame _ _ _ j (by omega)]
          exact Arena.getN_alloc a _ j hj
    · rw [if_pos hc] at h
      simp only [Except.ok.injEq, Prod.mk.injEq] at h
      obtain ⟨rfl, -⟩ := h
      rfl
  · intro a t a' r hc h
    rw [Arena.flatten, if_neg (not_not_intro hc)] at h
    by_cases hr : has_str parse_associates_right (a.getN t).data = true
    · rw [if_pos hr] at h
      cases hl : Arena.flatten_right_loop a.size (a.getN t).data (a.size + 1)
          (a.alloc (a.getN t).data) (some t) with
      | some a2 =>
        simp only [hl, Except.ok.injEq, Prod.mk.injEq] at h
        exact h.2.symm
      | none => simp only [hl, reduceCtorEq] at h
    · rw [if_neg hr] at h
      cases hl : Arena.flatten_left_loop (a.getN t).data (a.size + 1)
          (a.alloc (a.getN t).data) [] (some t) with
      | error e => simp only [hl, reduceCtorEq] at h
      | ok ns =>
        simp only [hl, Except.ok.injEq, Prod.mk.injEq] at h
        exact h.2.symm

/-- Concrete instance of C10's amended statement: a leaf is returned as-is
with the arena untouched. -/
theorem claim_C10_witness :
    Arena.flatten (Arena.ofList [⟨"x", [], none, none, none⟩]) 0 =
      .ok (Arena.ofList [⟨"x", [], none, none, none⟩], 0) :=
  claim_C10.1 (Arena.ofList [⟨"x", [], none, none, none⟩]) 0 (by decide)

/-- Counterexample to C10 as stated: on the tree the parser builds for the
valid statement `";x"` — a `";"` node whose child 0 is null (its `fold_l`
ran with no left sibling) — `flatten` neither returns `t` nor a new node:
its left-associative loop reads `i.data` with `i = i[0] = null` and throws
a TypeError. -/
theorem claim_C10_counterexample :
    Arena.flatten (Arena.ofList [⟨";", [none, some 1], none, none, none⟩,
        ⟨"x", [], none, none, none⟩]) 0 =
      .error "flatten: null dereference reading data of a missing child" := rfl

/-!
## Lexer and parser (caterwaul.js lines 372-600)

`parse` lexes the input in one pass, building the doubly-linked ribbon with
paren groups, the per-reduce-index fold lists and the invocation-candidate
list, then folds operators, wraps stray right-links in inferred semicolons
and collapses invocation nesting.  The character stream is the list of
char codes (`charCodeAt`); reading past the end gives `NaN`, modelled by the
sentinel `lexEOF`, which is outside every character class and unequal to
every real code. -/

/-- The model's read past the end of input (`charCodeAt` out of range is
`NaN`: not in any lookup table, equal to nothing). -/
def lexEOF : Nat := 0x110000

/-- `cs(i)` (line 388): the char code at `i`, or the NaN sentinel. -/
def cs (codes : List Nat) (i : Nat) : Nat := codes.getD i lexEOF

/-- `s.substring(a, b)` for `a ≤ b`, clamped to the string length. -/
def substr (codes : List Nat) (a b : Nat) : String :=
  String.mk (((codes.drop a).take (b - a)).map Char.ofNat)

/-- How a run of the engine can fail to produce a value.  `stall` is the
named internal error of line 463 (the lexer consumed nothing).  `diverge`
marks a spot where the source itself would loop forever; the model is total
and returns this marker instead.  `typeError` marks a null dereference the
source would throw as a TypeError. -/
inductive EngineErr where
  | stall
  | diverge (why : String)
  | typeError (why : String)
deriving Repr, DecidableEq

/-- What the lexer's `t` holds at the end of an iteration (line 460): `false`
for no token (comments), `true` for "take the substring `mark..i`", or an
explicitly built string (operators, identifiers). -/
inductive TVal where
  | fls
  | tru
  | str (v : String)
deriving Repr, DecidableEq

/-- The whitespace munch (line 397): `while (lex_space[c = cs(i)] && i < l)
mark = ++i` — afterwards `mark = i`.  Structural fuel; `l + 2` never runs
out since `i` grows toward `l`. -/
def space_scan (codes : List Nat) (l : Nat) : Nat → Nat → Except EngineErr Nat
  | 0, _ => .error (.diverge "space_scan fuel")
  | fuel + 1, i =>
    if lex_space.contains (cs codes i) ∧ i < l then space_scan codes l fuel (i + 1)
    else .ok i

/-- A `while (++i < l && pred(cs(i)));` loop, returning the final `i`. -/
def scan_while (l : Nat) (pred : Nat → Bool) : Nat → Nat → Except EngineErr Nat
  | 0, _ => .error (.diverge "scan_while fuel")
  | fuel + 1, i =>
    if i + 1 < l ∧ pred (i + 1) then scan_while l pred fuel (i + 1)
    else .ok (i + 1)

/-- The block-comment scan (line 405): `while (++i < l && cs(i) !==
lex_slash || cs(i - 1) !== lex_star);`.  The loop exits at the first
position `j` with `cs(j-1) = "*"` and (`j ≥ l` or `cs(j) = "/"`); no such
position at all (an unterminated comment not ending in `*`) makes the
source loop forever, which the model reports as `none`.  Positions past `l`
cannot satisfy the exit condition (`cs(j-1)` is the NaN sentinel), so the
search up to `l` is complete. -/
def comment_scan (codes : List Nat) (l : Nat) : Nat → Nat → Option Nat
  | 0, _ => none
  | fuel + 1, j =>
    if j > l then none
    else if cs codes (j - 1) = lex_star ∧ (l ≤ j ∨ cs codes j = lex_slash) then some j
    else comment_scan codes l fuel (j + 1)

/-- The string/regex body scan (line 413): `while (++i < l && (c = cs(i))
!== close || esc) esc = ! esc && c === lex_back;`.  Exits just past the
closing delimiter (or at the end of input). -/
def string_scan (codes : List Nat) (l close : Nat) :
    Nat → Nat → Bool → Except EngineErr Nat
  | 0, _, _ => .error (.diverge "string_scan fuel")
  | fuel + 1, i, esc =>
    if (i + 1 < l ∧ cs codes (i + 1) ≠ close) ∨ esc then
      string_scan codes l close fuel (i + 1)
        (!esc && decide (i + 1 < l) && decide (cs codes (i + 1) = lex_back))
    else .ok (i + 1)

/-- The number scan (line 439): `while (++i < l && (lex_decimal[c = cs(i)]
|| (dot ^ (dot |= c === lex_dot)) || (exp ^ (exp |= lex_exp[c] && ++i))))`.
`dot` and `exp` are the source's numbers under `|=`/`^` (booleans coerce to
0/1; `exp` absorbs the post-increment value of `i`). -/
def float_scan (codes : List Nat) (l : Nat) :
    Nat → Nat → Nat → Nat → Except EngineErr Nat
  | 0, _, _, _ => .error (.diverge "float_scan fuel")
  | fuel + 1, i, dot, exp =>
    if i + 1 ≥ l then .ok (i + 1)
    else
      let c := cs codes (i + 1)
      if lex_decimal.contains c then float_scan codes l fuel (i + 1) dot exp
      else
        let dot1 := dot ||| (if c = lex_dot then 1 else 0)
        if dot ^^^ dot1 ≠ 0 then float_scan codes l fuel (i + 1) dot1 exp
        else if lex_exp.contains c then
          let exp1 := exp ||| (i + 2)
          if exp ^^^ exp1 ≠ 0 then float_scan codes l fuel (i + 2) dot1 exp1
          else .ok (i + 2)
        else .ok (i + 1)

/-- The trailing-digit scan after a number (line 440): `while (i < l &&
lex_decimal[cs(i)]) ++i;`. -/
def decimal_scan (codes : List Nat) (l : Nat) : Nat → Nat → Except EngineErr Nat
  | 0, _ => .error (.diverge "decimal_scan fuel")
  | fuel + 1, i =>
    if i < l ∧ lex_decimal.contains (cs codes i) then decimal_scan codes l fuel (i + 1)
    else .ok i

/-- The greedy operator scan (line 450): `while (i < l && lex_punct[cs(i)]
&& has(lex_op, t + s.charAt(i))) t += s.charAt(i++);`. -/
def op_scan (codes : List Nat) (l : Nat) : Nat → Nat → String → Except EngineErr (Nat × String)
  | 0, _, _ => .error (.diverge "op_scan fuel")
  | fuel + 1, i, t =>
    if i < l ∧ lex_punct.contains (cs codes i) ∧
        has_str lex_op (t.push (Char.ofNat (cs codes i))) then
      op_scan codes l fuel (i + 1) (t.push (Char.ofNat (cs codes i)))
    else .ok (i, t)

/-- One pass through the lexing branch chain (lines 404-457), starting at
`i = mark` (just past the whitespace munch) with `c = cs(mark)`.  Returns
the `t` value, the new `i` and the new `re` flag. -/
def lex_branch (codes : List Nat) (l : Nat) (mark : Nat) (re : Bool) :
    Except EngineErr (TVal × Nat × Bool) := do
  let c := cs codes mark
  if lex_bracket.contains c then
    .ok (.tru, mark + 1, lex_opener.contains c)
  else if c = lex_slash ∧ cs codes (mark + 1) = lex_star then
    match comment_scan codes l (l + 2) (mark + 3) with
    | some j => .ok (.fls, j + 1, re)
    | none => .error (.diverge "unterminated block comment: the scan loop never exits")
  else if c = lex_slash ∧ cs codes (mark + 1) = lex_slash then
    let j ← scan_while l (fun k => ! lex_eol.contains (cs codes k)) (l + 2) mark
    .ok (.fls, j, re)
  else if lex_quote.contains c ∧ re then
    let j ← string_scan codes l c (2 * l + 4) mark false
    let j2 ← scan_while l (fun k => lex_regexp_suffix.contains (cs codes k)) (l + 2) j
    .ok (.tru, j2, false)
  else if c = lex_zero ∧ lex_integer.contains (cs codes (mark + 1)) then
    let j ← scan_while l (fun k => lex_integer.contains (cs codes k)) (l + 2) mark
    .ok (.tru, j, false)
  else if lex_float.contains c ∧ (c ≠ lex_dot ∨ lex_decimal.contains (cs codes (mark + 1))) then
    let j ← float_scan codes l (l + 2) mark 0 0
    let j2 ← decimal_scan codes l (l + 2) j
    .ok (.tru, j2, false)
  else if lex_punct.contains c then
    let t0 := if re then "u" else ""
    let r ← op_scan codes l (l + 2) mark t0
    .ok (.str r.2, r.1, ! lex_postfix_unary.contains r.2)
  else
    let j ← scan_while l (fun k => lex_ident.contains (cs codes k)) (l + 2) mark
    let tok := substr codes mark j
    .ok (.str tok, j, has_str lex_op tok)

/-- The whole engine state while parsing: the arena, the grouping stack with
its cached top, the `head`/`parent` cursor pair, the reduce-index lists, the
invocation-candidate index, the node-creation log, the regex-mode flag and
the scan position. -/
structure PState where
  arena : Arena
  grouping_stack : List String
  gs_top : Option String
  head : Option Nat
  parent : Option Nat
  indexes : List (List Nat)
  invocation_nodes : List Nat
  all_nodes : List Nat
  re : Bool
  i : Nat

/-- The parser's `push` (line 390): a sibling of `head` when one exists,
else the first child of `parent`; becomes the new `head`; logged in
`all_nodes` (the source's `new_node` inside `push`). -/
def ps_push (st : PState) (n : Nat) : PState :=
  let st1 := match st.head with
    | some h => { st with arena := Arena.nsibling st.arena h n }
    | none => { st with arena := Arena.nappend_to st.arena n st.parent }
  { st1 with head := some n, all_nodes := st1.all_nodes ++ [n] }
where
  /-- `append_to` lifted to an optional target. -/
  Arena.nappend_to (a : Arena) (t : Nat) (x : Option Nat) : Arena :=
    match x with
    | some xi => Arena.nappend a xi (some t)
    | none => a

/-- Token processing (lines 475-477): a closer pops the group (the group
node becomes `head`); an opener allocates a group node, pushes it, records
it in `all_nodes` twice (the source calls `new_node` both inside and around
`push`), makes it `parent` and clears `head`; any other token is allocated,
logged twice and pushed.  Non-closers are then registered in the reduce
index of their token. -/
def process_token (tok : String) (st : PState) : PState :=
  if some tok = st.gs_top then
    let gs' := st.grouping_stack.dropLast
    let newhead := match st.head with
      | some h => (st.arena.getN h).p
      | none => st.parent
    { st with grouping_stack := gs', gs_top := gs'.getLast?, head := newhead, parent := none }
  else
    let nid := st.arena.size
    let a1 := st.arena.alloc tok
    let st0 := { st with arena := a1, all_nodes := st.all_nodes ++ [nid] }
    let st1 := match tbl_lookup parse_group tok with
      | some closer =>
        let stg := { st0 with grouping_stack := st0.grouping_stack ++ [closer]
                              gs_top := some closer }
        let st' := ps_push stg nid
        { st' with parent := some nid, head := none }
      | none => ps_push st0 nid
    match parse_inverse_order tok with
    | some gi =>
      match st1.head <|> st1.parent with
      | some x => { st1 with indexes := lset st1.indexes gi (st1.indexes.getD gi [] ++ [x]) }
      | none => st1
    | none => st1

/-- The close-paren regex special case (line 496): `re |= t === ')' &&
head.l && has(parse_r_until_block, head.l.data)`. -/
def lex_post_re (tok : String) (st : PState) : PState :=
  { st with re := st.re ||
      (tok = ")" &&
        (match st.head with
         | some h =>
           match (st.arena.getN h).l with
           | some li => (tbl_lookup parse_r_until_block ((st.arena.getN li).data)).isSome
           | none => false
         | none => false)) }

/-- One iteration of the main lex loop (lines 396-496): munch whitespace,
run the branch chain, raise the stall error when no character was consumed
(line 463), drop comment pseudo-tokens, unify `t` (`u;` becomes `;`), then
process grouping/indexing and the close-paren regex case. -/
def lex_iter (codes : List Nat) (l : Nat) (st : PState) : Except EngineErr PState := do
  let mark ← space_scan codes l (l + 2) st.i
  let br ← lex_branch codes l mark st.re
  let (t, i', re') := br
  if i' = mark then .error .stall
  else
    match t with
    | .fls => .ok { st with i := i', re := re' }
    | _ =>
      let tok := match t with
        | .tru => substr codes mark i'
        | .str v => if v = "u;" then ";" else v
        | .fls => ""
      let st1 := process_token tok { st with i := i', re := re' }
      .ok (lex_post_re tok st1)

/-- The main lex loop (line 396): `while ((mark = i) < l) …`.  The fuel is
structural; `lex_iter` strictly advances `i` (see `lex_iter_progress`), so
`l + 1` iterations always suffice and the fuel marker is unreachable. -/
def lex_loop (codes : List Nat) (l : Nat) : Nat → PState → Except EngineErr PState
  | 0, _ => .error (.diverge "lex_loop fuel")
  | fuel + 1, st =>
    if st.i < l then
      match lex_iter codes l st with
      | .error e => .error e
      | .ok st' => lex_loop codes l fuel st'
    else .ok st

/-- The bounded pre-block fold loop of the grab-until-block dispatch (line
573): `for (count = 0; count < limit && node.r && ! has(parse_block,
node.r.data); ++count) node.fold_r();`.  Structural on the remaining
count. -/
def grab_loop (n : Nat) : Nat → Arena → Arena
  | 0, a => a
  | rem + 1, a =>
    match (a.getN n).r with
    | some ri =>
      if ¬ has_str parse_block ((a.getN ri).data) then grab_loop n rem (Arena.nfold_r a n)
      else a
    | none => a

/-- One dispatch of the operator fold loop (lines 526-582) on the node `n`:
binary `fold_lr`; ambiguous `(`/`[` reclassification (wrap the left
sibling, absorb the group, record the invocation candidate); unary left and
right folds; ternary fold plus child swap; grab-until-block with its
continuation handling; and the optional right fold. -/
def fold_step (st : PState) (n : Nat) : PState :=
  let a := st.arena
  let d := (a.getN n).data
  if has_str parse_lr d then { st with arena := Arena.nfold_lr a n }
  else if has_str parse_ambiguous_group d &&
      (match (a.getN n).l with
       | some li => (a.getN li).data = "." ||
           !(has_str lex_op ((a.getN li).data) || has_str parse_not_a_value ((a.getN li).data))
       | none => false) then
    match (a.getN n).l with
    | some li =>
      let w := a.size
      let closer := (tbl_lookup parse_group d).getD ""
      let a1 := a.alloc (d ++ closer)
      let a2 := Arena.nwrap a1 li w
      let a3 := Arena.nfold_r a2 w
      { st with arena := a3, all_nodes := st.all_nodes ++ [w]
                invocation_nodes := st.invocation_nodes ++ [w] }
    | none => st
  else if has_str parse_l d then { st with arena := Arena.nfold_l a n }
  else if has_str parse_r d then { st with arena := Arena.nfold_r a n }
  else if has_str parse_ternary d then
    let a1 := Arena.nfold_lr a n
    let ch := (a1.getN n).children
    let a2 := a1.modifyN n fun nd =>
      { nd with children := lset (lset nd.children 1 (ch.getD 0 none)) 0 (ch.getD 1 none) }
    { st with arena := a2 }
  else if (tbl_lookup parse_r_until_block d).isSome &&
      (match (a.getN n).r with
       | some ri => (a.getN ri).data ≠ ":"
       | none => false) then
    let limit := (tbl_lookup parse_r_until_block d).getD 0
    let a1 := grab_loop n limit a
    let a2 := match (a1.getN n).r with
      | some ri => if (a1.getN ri).data ≠ ";" then Arena.nfold_r a1 n else a1
      | none => a1
    let acc := tbl_lookup parse_accepts d
    let rrdata : Option String := do
      let ri ← (a2.getN n).r
      let rri ← (a2.getN ri).r
      pure ((a2.getN rri).data)
    let rdata : Option String := ((a2.getN n).r).map fun ri => (a2.getN ri).data
    if acc.isSome ∧ acc = rrdata then
      { st with arena := Arena.nfold_r (Arena.npop (Arena.nfold_r a2 n) n) n }
    else if acc.isSome ∧ acc = rdata then
      { st with arena := Arena.nfold_r a2 n }
    else { st with arena := a2 }
  else if has_str parse_r_optional d then
    match (a.getN n).r with
    | some ri => if (a.getN ri).data ≠ ";" then { st with arena := Arena.nfold_r a n } else st
    | none => st
  else st

/-- The operator fold pass (lines 519-582): for each reduce index from
highest to lowest precedence, visit its recorded nodes left-to-right or
right-to-left per `parse_index_forward` and dispatch each. -/
def fold_pass (st : PState) : PState :=
  (List.range st.indexes.length).foldl
    (fun st gi =>
      let idx := st.indexes.getD gi []
      let items := if parse_index_forward.getD gi true then idx else idx.reverse
      items.foldl fold_step st)
    st

/-- The inferred-semicolon pass (line 590): walk `all_nodes` in reverse
creation order; a node that still has a right sibling is wrapped in a fresh
`i;` node (not logged in `all_nodes`) which then absorbs that sibling. -/
def third_pass (st : PState) : PState :=
  st.all_nodes.reverse.foldl
    (fun st n =>
      match (st.arena.getN n).r with
      | some _ =>
        let w := st.arena.size
        let a1 := st.arena.alloc "i;"
        let a2 := Arena.nwrap a1 n w
        { st with arena := Arena.nfold_r a2 w }
      | none => st)
    st

/-- The invocation-flattening pass (line 597): `(child = _[1] = _[1][0]) &&
(child.p = _)` for each invocation candidate — replace the grouped right
child by its sole element and reparent it. -/
def fourth_pass (st : PState) : PState :=
  st.invocation_nodes.foldl
    (fun st w =>
      let a := st.arena
      match (a.getN w).children.getD 1 none with
      | some gi =>
        let child := (a.getN gi).children.getD 0 none
        let a1 := a.modifyN w fun nd => { nd with children := lset nd.children 1 child }
        match child with
        | some ci => { st with arena := a1.modifyN ci fun nd => { nd with p := some w } }
        | none => { st with arena := a1 }
      | none => st)
    st

/-- Root discovery (line 599): `while (head.p) head = head.p`.  Fuel bounds
the climb; a `p` cycle (where the source would loop forever) gives
`none`. -/
def climb (a : Arena) : Nat → Nat → Option Nat
  | 0, _ => none
  | fuel + 1, h =>
    match (a.getN h).p with
    | some pi => climb a fuel pi
    | none => some h

/-- `parse` (lines 372-600): lex into the linked structure, fold operators,
wrap stray right links in inferred semicolons, collapse invocation nesting,
and climb to the root.  On empty input the source dereferences the null
`head` (a TypeError). -/
def parse (s : String) : Except EngineErr (PState × Nat) :=
  let codes := s.data.map Char.toNat
  let l := codes.length
  let st0 : PState :=
    { arena := ⟨fun _ => defNode, 0⟩, grouping_stack := [], gs_top := none, head := none, parent := none
      indexes := parse_reduce_order.map fun _ => []
      invocation_nodes := [], all_nodes := [], re := true, i := 0 }
  match lex_loop codes l (l + 1) st0 with
  | .error e => .error e
  | .ok st1 =>
    let st4 := fourth_pass (third_pass (fold_pass st1))
    match st4.head with
    | none => .error (.typeError "null head: empty token stream")
    | some h =>
      match climb st4.arena (st4.arena.size + 1) h with
      | some root => .ok (st4, root)
      | none => .error (.diverge "parent cycle in root discovery")

/-- The regex `/\w/` test on the last character of `op` (line 261): a word
character is a letter, digit or underscore; for the empty string
(`charAt` out of range) the test is false. -/
def last_is_word (op : String) : Bool :=
  match op.data.getLast? with
  | some ch => ch.isAlphanum || ch = '_'
  | none => false

/-- `op.replace(/^u/, '')` (line 267): drop one leading `u` if present. -/
def strip_u (op : String) : String :=
  match op.data with
  | 'u' :: rest => String.mk rest
  | _ => op

mutual

/-- `serialize` (caterwaul.js lines 261-272): emit source text for a node,
dispatching on its `data`; a stray right sibling is appended as a
`/* -> … */` comment.  A null node (`syntax_node_tostring` of `null`)
serializes to `""`.  `fuel` bounds the recursion — it shrinks at every
step, so any value above twice the object count covers every acyclic parse
result (the source recurses on the object graph and would not terminate on
a cyclic one). -/
def serialize (a : Arena) : Nat → Nat → String
  | 0, _ => "#serialize-fuel#"
  | fuel + 1, t =>
    let op := (a.getN t).data
    let right := match (a.getN t).r with
      | some rn => "/* -> " ++ serialize a fuel rn ++ " */"
      | none => ""
    let space := if last_is_word op then " " else ""
    let ch := (a.getN t).children
    let s :=
      if has_str parse_invisible op then
        String.intercalate space (serialize_list a fuel ch)
      else if has_str parse_invocation op then
        String.intercalate space
          [serialize_opt a fuel (ch.getD 0 none), op.take 1,
           serialize_opt a fuel (ch.getD 1 none), (op.drop 1).take 1]
      else if has_str parse_ternary op then
        String.intercalate space
          [serialize_opt a fuel (ch.getD 0 none), op, serialize_opt a fuel (ch.getD 1 none),
           (tbl_lookup parse_group op).getD "", serialize_opt a fuel (ch.getD 2 none)]
      else if (tbl_lookup parse_group op).isSome ∧ op ≠ "" then
        op ++ String.intercalate space (serialize_list a fuel ch) ++
          (tbl_lookup parse_group op).getD ""
      else if has_str parse_lr op then
        if ch.length ≠ 0 then
          String.intercalate (space ++ op ++ space) (serialize_list a fuel ch)
        else op
      else if has_str parse_r op || has_str parse_r_optional op then
        strip_u op ++ space ++ serialize_opt a fuel (ch.getD 0 none)
      else if (tbl_lookup parse_r_until_block op).isSome ∧ op ≠ "" then
        if (tbl_lookup parse_accepts op).isSome &&
            (match ch.getD 1 none with
             | some c1 => (a.getN c1).data ≠ "\x7b"
             | none => false) &&
            (match ch.getD 2 none with
             | some c2 => tbl_lookup parse_accepts op = some ((a.getN c2).data)
             | none => false) then
          op ++ space ++ String.intercalate ""
            [serialize_opt a fuel (ch.getD 0 none), serialize_opt a fuel (ch.getD 1 none),
             ";", serialize_opt a fuel (ch.getD 2 none)]
        else op ++ space ++ String.intercalate "" (serialize_list a fuel ch)
      else if has_str parse_l op then
        serialize_opt a fuel (ch.getD 0 none) ++ space ++ op
      else op
    if right ≠ "" then s ++ right else s

/-- `syntax_node_tostring` over an optional node: null serializes to "". -/
def serialize_opt (a : Arena) : Nat → Option Nat → String
  | _, none => ""
  | 0, some _ => "#serialize-fuel#"
  | fuel + 1, some n => serialize a fuel n

/-- Serialize each child (null children become ""). -/
def serialize_list (a : Arena) : Nat → List (Option Nat) → List String
  | _, [] => []
  | 0, _ :: _ => ["#serialize-fuel#"]
  | fuel + 1, c :: rest => serialize_opt a fuel c :: serialize_list a fuel rest

end

/-- `serialize` at the default fuel used by the concrete theorems: more than
the object count, enough for every acyclic parse result. -/
def serialize_root (st : PState) (root : Nat) : String :=
  serialize st.arena (8 * st.arena.size + 64) root

/-!
## Observations of a parse result (claims C5-C8)

The remaining claims compare whole runs of the engine.  `tree_of` reads the
linked arena structure back as a pure data/children tree so that two parse
results can be compared up to node identity; `ptree` and `pser` compose
`parse` with that reading and with `serialize` respectively; `lex_state`
runs only the first (lexing) loop of `parse`, from `parse`'s exact initial
state.
-/

deriving instance DecidableEq for Except

/-- Read the arena's linked structure as a pure tree of `data` values: a
null child reads as a `#null#` marker node.  `fuel` bounds the depth; any
value above the node count covers every acyclic parse result. -/
def tree_of (a : Arena) : Nat → Option Nat → syntax_tree
  | 0, _ => .node "#fuel#" []
  | _, none => .node "#null#" []
  | fuel + 1, some n => .node ((a.getN n).data) ((a.getN n).children.map (tree_of a fuel))

/-- `parse` followed by reading the result as a pure tree. -/
def ptree (s : String) : Except EngineErr syntax_tree :=
  (parse s).map fun r => tree_of r.1.arena (r.1.arena.size + 1) (some r.2)

/-- `parse` followed by `serialize` at the returned root. -/
def pser (s : String) : Except EngineErr String :=
  (parse s).map fun r => serialize_root r.1 r.2

/-- The first (lexing) loop of `parse` alone, started from `parse`'s
initial state (lines 372-496). -/
def lex_state (s : String) : Except EngineErr PState :=
  let codes := s.data.map Char.toNat
  let l := codes.length
  let st0 : PState :=
    { arena := ⟨fun _ => defNode, 0⟩, grouping_stack := [], gs_top := none, head := none, parent := none
      indexes := parse_reduce_order.map fun _ => []
      invocation_nodes := [], all_nodes := [], re := true, i := 0 }
  lex_loop codes l (l + 1) st0

/-!
## Per-scanner progress (for C8)

Each inner scan loop of the lexer only moves the position forward; the
branch chain therefore returns a position at or beyond `mark`, and a
completed `lex_iter` strictly advances `i` (the `i === mark` stall check
rules out the equal case).
-/

/-- The whitespace munch never moves backward. -/
theorem space_scan_le (codes : List Nat) (l : Nat) : ∀ (fuel i j : Nat),
    space_scan codes l fuel i = .ok j → i ≤ j := by
  intro fuel
  induction fuel with
  | zero => intro i j h; simp [space_scan] at h
  | succ m ih =>
    intro i j h
    unfold space_scan at h
    split at h
    · exact Nat.le_trans (Nat.le_succ i) (ih _ _ h)
    · cases h; exact Nat.le_refl _

/-- A `while (++i < l && pred)` loop lands strictly beyond its start. -/
theorem scan_while_lt (l : Nat) (pred : Nat → Bool) : ∀ (fuel i j : Nat),
    scan_while l pred fuel i = .ok j → i < j := by
  intro fuel
  induction fuel with
  | zero => intro i j h; simp [scan_while] at h
  | succ m ih =>
    intro i j h
    unfold scan_while at h
    split at h
    · exact Nat.lt_trans (Nat.lt_succ_self i) (ih _ _ h)
    · cases h; exact Nat.lt_succ_self _

/-- The block-comment scan exits at or beyond its start. -/
theorem comment_scan_le (codes : List Nat) (l : Nat) : ∀ (fuel i j : Nat),
    comment_scan codes l fuel i = some j → i ≤ j := by
  intro fuel
  induction fuel with
  | zero => intro i j h; simp [comment_scan] at h
  | succ m ih =>
    intro i j h
    unfold comment_scan at h
    split at h
    · simp at h
    · split at h
      · cases h; exact Nat.le_refl _
      · exact Nat.le_trans (Nat.le_succ i) (ih _ _ h)

/-- The string/regex body scan lands strictly beyond its start. -/
theorem string_scan_lt (codes : List Nat) (l close : Nat) :
    ∀ (fuel i : Nat) (esc : Bool) (j : Nat),
    string_scan codes l close fuel i esc = .ok j → i < j := by
  intro fuel
  induction fuel with
  | zero => intro i esc j h; simp [string_scan] at h
  | succ m ih =>
    intro i esc j h
    unfold string_scan at h
    split at h
    · exact Nat.lt_trans (Nat.lt_succ_self i) (ih _ _ _ h)
    · cases h; exact Nat.lt_succ_self _

/-- The number scan lands strictly beyond its start. -/
theorem float_scan_lt (codes : List Nat) (l : Nat) : ∀ (fuel i dot exp j : Nat),
    float_scan codes l fuel i dot exp = .ok j → i < j := by
  intro fuel
  induction fuel with
  | zero => intro i dot exp j h; simp [float_scan] at h
  | succ m ih =>
    intro i dot exp j h
    unfold float_scan at h
    simp only [] at h
    repeat' split at h
    all_goals
      first
      | (simp only [Except.ok.injEq] at h; omega)
      | (have hfs := ih _ _ _ _ h; omega)

/-- The trailing-digit scan never moves backward. -/
theorem decimal_scan_le (codes : List Nat) (l : Nat) : ∀ (fuel i j : Nat),
    decimal_scan codes l fuel i = .ok j → i ≤ j := by
  intro fuel
  induction fuel with
  | zero => intro i j h; simp [decimal_scan] at h
  | succ m ih =>
    intro i j h
    unfold decimal_scan at h
    split at h
    · exact Nat.le_trans (Nat.le_succ i) (ih _ _ h)
    · cases h; exact Nat.le_refl _

/-- The greedy operator scan never moves backward. -/
theorem op_scan_le (codes : List Nat) (l : Nat) : ∀ (fuel i : Nat) (t : String) (r : Nat × String),
    op_scan codes l fuel i t = .ok r → i ≤ r.1 := by
  intro fuel
  induction fuel with
  | zero => intro i t r h; simp [op_scan] at h
  | succ m ih =>
    intro i t r h
    unfold op_scan at h
    split at h
    · exact Nat.le_trans (Nat.le_succ i) (ih _ _ _ h)
    · cases h; exact Nat.le_refl _

/-- The whole branch chain returns a position at or beyond `mark`. -/
theorem lex_branch_le (codes : List Nat) (l mark : Nat) (re : Bool)
    (r : TVal × Nat × Bool) (h : lex_branch codes l mark re = .ok r) :
    mark ≤ r.2.1 := by
  unfold lex_branch at h
  simp only [Bind.bind, Except.bind, pure, Except.pure] at h
  split at h
  · cases h; exact Nat.le_succ _
  · split at h
    · split at h
      next j hj =>
        cases h
        have := comment_scan_le codes l (l + 2) (mark + 3) j hj
        simp only []
        omega
      next => simp at h
    · split at h
      · split at h
        next e heq => simp at h
        next j heq =>
          cases h
          have := scan_while_lt l _ (l + 2) mark j heq
          simp only []
          omega
      · split at h
        · split at h
          next e heq => simp at h
          next j heq =>
            split at h
            next e2 heq2 => simp at h
            next j2 heq2 =>
              cases h
              have h1 := string_scan_lt codes l _ (2 * l + 4) mark false j heq
              have h2 := scan_while_lt l _ (l + 2) j j2 heq2
              simp only []
              omega
        · split at h
          · split at h
            next e heq => simp at h
            next j heq =>
              cases h
              have := scan_while_lt l _ (l + 2) mark j heq
              simp only []
              omega
          · split at h
            · split at h
              next e heq => simp at h
              next j heq =>
                split at h
                next e2 heq2 => simp at h
                next j2 heq2 =>
                  cases h
                  have h1 := float_scan_lt codes l (l + 2) mark 0 0 j heq
                  have h2 := decimal_scan_le codes l (l + 2) j j2 heq2
                  simp only []
                  omega
            · split at h
              · split at h
                next e heq => simp at h
                next rr heq =>
                  cases h
                  have := op_scan_le codes l (l + 2) mark _ rr heq
                  simpa using this
              · split at h
                next e heq => simp at h
                next j heq =>
                  cases h
                  have := scan_while_lt l _ (l + 2) mark j heq
                  simp only []
                  omega

/-- The parser's `push` does not touch the scan position. -/
theorem ps_push_i (st : PState) (n : Nat) : (ps_push st n).i = st.i := by
  unfold ps_push
  cases st.head <;> rfl

/-- Token processing does not touch the scan position. -/
theorem process_token_i (tok : String) (st : PState) : (process_token tok st).i = st.i := by
  unfold process_token
  simp only []
  repeat' split
  all_goals simp [ps_push_i]

/-- A completed iteration of the main lex loop strictly advances `i`: the
branch chain lands at or beyond `mark ≥ i`, and the stall check (line 463)
turns the only remaining case `i = mark` into an error. -/
theorem lex_iter_progress (codes : List Nat) (l : Nat) (st st' : PState)
    (h : lex_iter codes l st = .ok st') : st.i < st'.i := by
  unfold lex_iter at h
  simp only [Bind.bind, Except.bind, pure, Except.pure] at h
  split at h
  next e heq => simp at h
  next mark heq =>
    have h1 := space_scan_le codes l (l + 2) st.i mark heq
    split at h
    next e heq2 => simp at h
    next br heq2 =>
      obtain ⟨t, i', re'⟩ := br
      dsimp only at h
      have h2 : mark ≤ i' := lex_branch_le codes l mark st.re (t, i', re') heq2
      split at h
      · simp at h
      next hne =>
        split at h
        · cases h; simp; omega
        · simp only [Except.ok.injEq] at h
          subst h
          simp [lex_post_re, process_token_i]
          omega

/-- C8 (amended): every iteration of the lexer's main loop that completes
strictly advances the scan position `i`, and a non-advancing iteration is
surfaced to the caller as the raised stall error rather than recovered from
(for example on `"x~y"`, whose `~` alone is not in the operator table, so
the greedy operator scan consumes nothing).  It does NOT follow that parse
terminates on every input: an iteration may itself fail to complete — see
the counterexample. -/
theorem claim_C8 :
    (∀ (codes : List Nat) (l : Nat) (st st' : PState),
        lex_iter codes l st = .ok st' → st.i < st'.i) ∧
    parse "x~y" = .error .stall :=
  ⟨fun codes l st st' h => lex_iter_progress codes l st st' h, by rfl⟩

/-- Concrete instance of C8's amended statement: the stall error is what
`parse` itself returns on `"x~y"`. -/
theorem claim_C8_witness : parse "x~y" = .error .stall := claim_C8.2

/-- Counterexample to C8 as stated (`parse never runs forever on any
input`): on the unterminated block comment `"/*"` the inner comment scan's
exit condition `cs(j-1) === "*" && (j >= l || cs(j) === "/")` is never
satisfied at any position the loop visits (past the end of input `cs`
reads the NaN sentinel), so the source's `while` loop never exits; the
model reports this as `none` for every fuel, and `parse` surfaces the
divergence marker. -/
theorem claim_C8_counterexample :
    (∀ j, 3 ≤ j →
      ¬(cs (("/*" : String).data.map Char.toNat) (j - 1) = lex_star ∧
        (2 ≤ j ∨ cs (("/*" : String).data.map Char.toNat) j = lex_slash))) ∧
    (∀ fuel, comment_scan (("/*" : String).data.map Char.toNat) 2 fuel 3 = none) ∧
    parse "/*" = .error (.diverge "unterminated block comment: the scan loop never exits") := by
  refine ⟨?_, ?_, by rfl⟩
  · intro j hj hand
    have hlen : (("/*" : String).data.map Char.toNat).length = 2 := by decide
    have : cs (("/*" : String).data.map Char.toNat) (j - 1) = lexEOF := by
      unfold cs
      exact List.getD_eq_default _ _ (by omega)
    rw [this] at hand
    exact absurd hand.1 (by decide)
  · intro fuel
    cases fuel <;> rfl

set_option maxHeartbeats 4000000 in
/-- C6: the close-paren special case of the lex loop (line 496) — a `")"`
token whose group node has a left sibling in the `parse_r_until_block`
table (`if`, `for`, `while`, `with`, `do`, `catch`, `function`, `try`)
flips the lexer back to regex mode; and concretely, lexing
`if (condition) /foo/.test(x)` emits `/foo/` as one regex-literal token
(each token node is logged twice in `all_nodes`, once by `new_node` and
once inside `push`; the two `")"` tokens only pop the group stack and
allocate nothing). -/
theorem claim_C6 :
    (∀ (st : PState) (h li : Nat),
        st.head = some h →
        (st.arena.getN h).l = some li →
        (tbl_lookup parse_r_until_block ((st.arena.getN li).data)).isSome = true →
        (lex_post_re ")" st).re = true) ∧
    (lex_state "if (condition) /foo/.test(x)").map
        (fun st => st.all_nodes.map fun n => (st.arena.getN n).data) =
      .ok ["if", "if", "(", "(", "condition", "condition", "/foo/", "/foo/",
           ".", ".", "test", "test", "(", "(", "x", "x"] := by
  constructor
  · intro st h li hh hl hlu
    unfold lex_post_re
    simp [hh, hl, hlu]
  · decide

/-- Concrete instance of C6's general clause: a `")"` whose group node
follows an `"if"` turns regex mode back on even from `re = false`. -/
theorem claim_C6_witness :
    (lex_post_re ")" ⟨Arena.ofList [⟨"if", [], none, some 1, none⟩,
        ⟨")", [], some 0, none, none⟩], [], none, some 1, none, [], [], [],
        false, 0⟩).re = true :=
  claim_C6.1 _ 1 0 rfl (by decide) (by decide)

/-- The token-level part of the engine state: everything except the scan
position `i` and the regex-mode flag `re`, which the post-lex passes never
read.  Two lex runs with the same `core` produce the same parse tree. -/
def core (st : PState) : PState := { st with re := true, i := 0 }

/-- Congruence of `core` through a shared conditional. -/
theorem core_ite_cong {P : Prop} [Decidable P] {x1 x2 y1 y2 : PState}
    (hx : core x1 = core x2) (hy : core y1 = core y2) :
    core (if P then x1 else y1) = core (if P then x2 else y2) := by
  by_cases h : P
  · rw [if_pos h, if_pos h]; exact hx
  · rw [if_neg h, if_neg h]; exact hy

/-- The fold dispatch reads and writes only `core` fields: states agreeing
on `core` keep agreeing after a dispatch. -/
theorem fold_step_core_cong (st1 st2 : PState) (n : Nat) (h : core st1 = core st2) :
    core (fold_step st1 n) = core (fold_step st2 n) := by
  obtain ⟨a1, gs1, gt1, hd1, pr1, ix1, iv1, an1, re1, i1⟩ := st1
  obtain ⟨a2, gs2, gt2, hd2, pr2, ix2, iv2, an2, re2, i2⟩ := st2
  simp only [core, PState.mk.injEq] at h
  obtain ⟨h1, h2, h3, h4, h5, h6, h7, h8, -, -⟩ := h
  subst h1; subst h2; subst h3; subst h4; subst h5; subst h6; subst h7; subst h8
  unfold fold_step
  cases hL : (a1.getN n).l <;> cases hR : (a1.getN n).r <;>
    dsimp only <;>
    (repeat first | rfl | apply core_ite_cong) <;>
    (try simp only [hL, hR]) <;>
    (repeat first | rfl | apply core_ite_cong)

/-- A fold whose step preserves `core`-agreement preserves it. -/
theorem foldl_core_cong {γ : Type _} (f : PState → γ → PState)
    (hf : ∀ s1 s2 x, core s1 = core s2 → core (f s1 x) = core (f s2 x)) :
    ∀ (xs : List γ) (s1 s2 : PState), core s1 = core s2 →
      core (xs.foldl f s1) = core (xs.foldl f s2)
  | [], _, _, h => h
  | x :: xs, s1, s2, h => foldl_core_cong f hf xs _ _ (hf s1 s2 x h)

/-- The operator fold pass depends only on the `core` state. -/
theorem fold_pass_core_cong (st1 st2 : PState) (h : core st1 = core st2) :
    core (fold_pass st1) = core (fold_pass st2) := by
  unfold fold_pass
  have hix0 := congrArg PState.indexes h
  have hix : st1.indexes = st2.indexes := hix0
  rw [hix]
  refine foldl_core_cong _ ?_ _ _ _ h
  intro s1 s2 gi hc
  have hx0 := congrArg PState.indexes hc
  have hx : s1.indexes = s2.indexes := hx0
  dsimp only
  rw [hx]
  exact foldl_core_cong fold_step fold_step_core_cong _ _ _ hc

/-- The inferred-semicolon pass depends only on the `core` state. -/
theorem third_pass_core_cong (st1 st2 : PState) (h : core st1 = core st2) :
    core (third_pass st1) = core (third_pass st2) := by
  unfold third_pass
  have han0 := congrArg PState.all_nodes h
  have han : st1.all_nodes = st2.all_nodes := han0
  rw [han]
  refine foldl_core_cong _ ?_ _ _ _ h
  intro s1 s2 n hc
  obtain ⟨a1, gs1, gt1, hd1, pr1, ix1, iv1, an1, re1, i1⟩ := s1
  obtain ⟨a2, gs2, gt2, hd2, pr2, ix2, iv2, an2, re2, i2⟩ := s2
  simp only [core, PState.mk.injEq] at hc
  obtain ⟨h1, h2, h3, h4, h5, h6, h7, h8, -, -⟩ := hc
  subst h1; subst h2; subst h3; subst h4; subst h5; subst h6; subst h7; subst h8
  cases hr : (a1.getN n).r <;> (try simp only [hr]) <;> rfl

/-- The invocation-flattening pass depends only on the `core` state. -/
theorem fourth_pass_core_cong (st1 st2 : PState) (h : core st1 = core st2) :
    core (fourth_pass st1) = core (fourth_pass st2) := by
  unfold fourth_pass
  have hiv0 := congrArg PState.invocation_nodes h
  have hiv : st1.invocation_nodes = st2.invocation_nodes := hiv0
  rw [hiv]
  refine foldl_core_cong _ ?_ _ _ _ h
  intro s1 s2 w hc
  obtain ⟨a1, gs1, gt1, hd1, pr1, ix1, iv1, an1, re1, i1⟩ := s1
  obtain ⟨a2, gs2, gt2, hd2, pr2, ix2, iv2, an2, re2, i2⟩ := s2
  simp only [core, PState.mk.injEq] at hc
  obtain ⟨h1, h2, h3, h4, h5, h6, h7, h8, -, -⟩ := hc
  subst h1; subst h2; subst h3; subst h4; subst h5; subst h6; subst h7; subst h8
  cases hc1 : (a1.getN w).children.getD 1 none <;> (try simp only [hc1])
  · rfl
  next gi =>
    cases hc2 : (a1.getN gi).children.getD 0 none <;> (try simp only [hc2]) <;> rfl

/-- `parse` is the lexing loop (packaged as `lex_state`) followed by the
three passes and the root climb. -/
theorem parse_as_lex_state (s : String) :
    parse s = match lex_state s with
    | .error e => .error e
    | .ok st1 =>
      match (fourth_pass (third_pass (fold_pass st1))).head with
      | none => .error (.typeError "null head: empty token stream")
      | some h =>
        match climb (fourth_pass (third_pass (fold_pass st1))).arena
            ((fourth_pass (third_pass (fold_pass st1))).arena.size + 1) h with
        | some root => .ok (fourth_pass (third_pass (fold_pass st1)), root)
        | none => .error (.diverge "parent cycle in root discovery") := rfl

/-- `ptree` in terms of the lex state: the extracted tree is read off the
post-pass arena at the climbed root. -/
theorem ptree_as_lex_state (s : String) :
    ptree s = match lex_state s with
    | .error e => .error e
    | .ok st1 =>
      match (fourth_pass (third_pass (fold_pass st1))).head with
      | none => .error (.typeError "null head: empty token stream")
      | some h =>
        match climb (fourth_pass (third_pass (fold_pass st1))).arena
            ((fourth_pass (third_pass (fold_pass st1))).arena.size + 1) h with
        | some root => .ok (tree_of (fourth_pass (third_pass (fold_pass st1))).arena
            ((fourth_pass (third_pass (fold_pass st1))).arena.size + 1) (some root))
        | none => .error (.diverge "parent cycle in root discovery") := by
  unfold ptree
  rw [parse_as_lex_state]
  cases hls : lex_state s with
  | error e => rfl
  | ok st1 =>
    dsimp only
    cases hh : (fourth_pass (third_pass (fold_pass st1))).head with
    | none => rfl
    | some hd =>
      dsimp only
      cases hcl : climb (fourth_pass (third_pass (fold_pass st1))).arena
          ((fourth_pass (third_pass (fold_pass st1))).arena.size + 1) hd with
      | none => rfl
      | some root => rfl

/-- Determinism of the parse tree over the token-level state: two inputs
whose lex runs agree on `core` (scan position and regex flag aside) parse
to the same tree — the passes and the tree extraction never read `i` or
`re`. -/
theorem parse_core_det (s1 s2 : String)
    (h : (lex_state s1).map core = (lex_state s2).map core) :
    ptree s1 = ptree s2 := by
  rw [ptree_as_lex_state s1, ptree_as_lex_state s2]
  cases hls1 : lex_state s1 with
  | error e1 =>
    cases hls2 : lex_state s2 with
    | error e2 =>
      rw [hls1, hls2] at h
      simp only [Except.map, Except.error.injEq] at h
      rw [h]
    | ok st2' =>
      rw [hls1, hls2] at h
      simp [Except.map] at h
  | ok st1' =>
    cases hls2 : lex_state s2 with
    | error e2 =>
      rw [hls1, hls2] at h
      simp [Except.map] at h
    | ok st2' =>
      rw [hls1, hls2] at h
      simp only [Except.map, Except.ok.injEq] at h
      dsimp only
      have h4 : core (fourth_pass (third_pass (fold_pass st1'))) =
          core (fourth_pass (third_pass (fold_pass st2'))) :=
        fourth_pass_core_cong _ _ (third_pass_core_cong _ _ (fold_pass_core_cong _ _ h))
      have hh0 := congrArg PState.head h4
      have hh : (fourth_pass (third_pass (fold_pass st1'))).head =
          (fourth_pass (third_pass (fold_pass st2'))).head := hh0
      have ha0 := congrArg PState.arena h4
      have ha : (fourth_pass (third_pass (fold_pass st1'))).arena =
          (fourth_pass (third_pass (fold_pass st2'))).arena := ha0
      rw [← hh, ← ha]

set_option maxHeartbeats 16000000 in
/-- C5 (amended): `parse` after `serialize` after `parse` agrees with
`parse` whenever re-lexing the serialized text rebuilds the same
token-level lexer state — the same node arena with its links and groups,
grouping stack, cursors and reduce indexes; only the final scan position
and the regex-mode flag may differ (`core` discards exactly those two).
The universal clause is `parse_core_det`: the post-lex passes never read
`i` or `re`, so the parse tree is a function of the lexer's core state.
Concretely `x + 1` serializes to `x+1` and `f(x)` to itself.  Round-trip
does NOT hold on all accepted source — see the counterexample, where
serialization merges adjacent operator tokens. -/
theorem claim_C5 :
    (∀ (text out : String),
        pser text = .ok out →
        (lex_state out).map core = (lex_state text).map core →
        ptree out = ptree text) ∧
    pser "x + 1" = .ok "x+1" ∧
    pser "f(x)" = .ok "f(x)" :=
  ⟨fun text out _ hcore => parse_core_det out text hcore, by decide, by decide⟩

set_option maxHeartbeats 16000000 in
/-- Concrete instance of C5's universal clause: `x + 1` serializes to
`x+1`, whose lex run rebuilds the same core state (checked by the kernel),
so the round-tripped tree is the original one. -/
theorem claim_C5_witness :
    pser "x + 1" = .ok "x+1" ∧ ptree "x+1" = ptree "x + 1" :=
  ⟨claim_C5.2.1, claim_C5.1 "x + 1" "x+1" claim_C5.2.1 (by rfl)⟩

set_option maxHeartbeats 16000000 in
/-- Counterexample to C5 as stated: `a + +b` parses to `+(a, u+(b))`, but
serializes to `a++b` (no space survives between the binary `+` and the
unary `+`), which re-lexes the `++` as one postfix-increment token and
parses to the different tree `i;(++(a), b)` — so
`parse(serialize(parse(text)))` is not equivalent to `parse(text)` on all
accepted source. -/
theorem claim_C5_counterexample :
    pser "a + +b" = .ok "a++b" ∧
    ptree "a + +b" = .ok (.node "+" [.node "a" [], .node "u+" [.node "b" []]]) ∧
    ptree "a++b" = .ok (.node "i;" [.node "++" [.node "a" []], .node "b" []]) ∧
    syntax_tree.node "+" [.node "a" [], .node "u+" [.node "b" []]] ≠
      .node "i;" [.node "++" [.node "a" []], .node "b" []] :=
  ⟨by decide, by decide, by decide, by decide⟩

/-- C7: the ambiguous-group dispatch of the fold loop (lines 536-537), for
a `"("` or `"["` group node `n`.  When the immediately-left sibling `li`
exists and is a `"."` node or neither an operator (`lex_op`) nor a
value-disallowing keyword (`parse_not_a_value`), the node is reclassified:
a fresh node `w` (the old arena size) is allocated with data `"()"` or
`"[]"`, takes over `li`'s ribbon position, gets `li` as child 0 and the
former bracket group `n` as child 1, and is recorded as an invocation
candidate; no other pre-existing node changes.  When the data test fails,
or (last clause, any `st2`/`m`) the left sibling is absent, the dispatch
leaves the state untouched. -/
theorem claim_C7 (st : PState) (n li : Nat) (d ld : String)
    (ch lch : List (Option Nat))
    (hn : n < st.arena.size) (hli : li < st.arena.size) (hne : li ≠ n)
    (hd : d = "(" ∨ d = "[")
    (hnode : st.arena.getN n = ⟨d, ch, some li, none, none⟩)
    (hlnode : st.arena.getN li = ⟨ld, lch, none, some n, none⟩) :
    ((decide (ld = ".") || !(has_str lex_op ld || has_str parse_not_a_value ld)) = true →
      (fold_step st n).arena.getN st.arena.size =
        ⟨d ++ (tbl_lookup parse_group d).getD "", [some li, some n], none, none, none⟩ ∧
      (fold_step st n).arena.getN li = ⟨ld, lch, none, none, some st.arena.size⟩ ∧
      (fold_step st n).arena.getN n = ⟨d, ch, none, none, some st.arena.size⟩ ∧
      (fold_step st n).arena.size = st.arena.size + 1 ∧
      (fold_step st n).invocation_nodes = st.invocation_nodes ++ [st.arena.size] ∧
      (fold_step st n).all_nodes = st.all_nodes ++ [st.arena.size] ∧
      ∀ j, j ≠ li → j ≠ n → j ≠ st.arena.size →
        (fold_step st n).arena.getN j = st.arena.getN j) ∧
    ((decide (ld = ".") || !(has_str lex_op ld || has_str parse_not_a_value ld)) = false →
      fold_step st n = st) ∧
    (∀ (st2 : PState) (m : Nat) (d2 : String) (ch2 : List (Option Nat)) (rm pm : Option Nat),
      (d2 = "(" ∨ d2 = "[") →
      st2.arena.getN m = ⟨d2, ch2, none, rm, pm⟩ → fold_step st2 m = st2) := by
  have e1 : li ≠ st.arena.size := Nat.ne_of_lt hli
  have e2 : n ≠ st.arena.size := Nat.ne_of_lt hn
  have e1s : st.arena.size ≠ li := e1.symm
  have e2s : st.arena.size ≠ n := e2.symm
  have hnes : n ≠ li := hne.symm
  have hnodeN : st.arena.nodes n = ⟨d, ch, some li, none, none⟩ := hnode
  have hlnodeN : st.arena.nodes li = ⟨ld, lch, none, some n, none⟩ := hlnode
  rcases hd with rfl | rfl
  · refine ⟨?_, ?_, ?_⟩
    · intro hc
      unfold fold_step
      simp only [hnode, hlnode, show has_str parse_lr "(" = false from rfl,
        show has_str parse_ambiguous_group "(" = true from rfl, hc,
        Bool.false_eq_true, if_false, Bool.true_and, if_true]
      refine ⟨?_, ?_, ?_, ?_, ?_, ?_, ?_⟩ <;>
        simp only [Arena.nfold_r, Arena.nwrap, Arena.nreplace, Arena.nreparent, Arena.nunlink,
          Arena.nappend, Arena.alloc, Arena.modifyN, Arena.setN, Arena.getN, Arena.size] <;>
        first
        | (intro j hj1 hj2 hj3
           simp [hnodeN, hlnodeN, e1, e2, e1s, e2s, hne, hnes, hj1, hj2, hj3])
        | simp [hnodeN, hlnodeN, e1, e2, e1s, e2s, hne, hnes]
    · intro hc
      unfold fold_step
      simp only [hnode, hlnode, show has_str parse_lr "(" = false from rfl,
        show has_str parse_ambiguous_group "(" = true from rfl, hc,
        show has_str parse_l "(" = false from rfl,
        show has_str parse_r "(" = false from rfl,
        show has_str parse_ternary "(" = false from rfl,
        show tbl_lookup parse_r_until_block "(" = none from rfl,
        show has_str parse_r_optional "(" = false from rfl]
      simp
    · intro st2 m d2 ch2 rm pm hd2 hm
      rcases hd2 with rfl | rfl
      · unfold fold_step
        simp only [hm, show has_str parse_lr "(" = false from rfl,
          show has_str parse_ambiguous_group "(" = true from rfl,
          show has_str parse_l "(" = false from rfl,
          show has_str parse_r "(" = false from rfl,
          show has_str parse_ternary "(" = false from rfl,
          show tbl_lookup parse_r_until_block "(" = none from rfl,
          show has_str parse_r_optional "(" = false from rfl]
        simp
      · unfold fold_step
        simp only [hm, show has_str parse_lr "[" = false from rfl,
          show has_str parse_ambiguous_group "[" = true from rfl,
          show has_str parse_l "[" = false from rfl,
          show has_str parse_r "[" = false from rfl,
          show has_str parse_ternary "[" = false from rfl,
          show tbl_lookup parse_r_until_block "[" = none from rfl,
          show has_str parse_r_optional "[" = false from rfl]
        simp
  · refine ⟨?_, ?_, ?_⟩
    · intro hc
      unfold fold_step
      simp only [hnode, hlnode, show has_str parse_lr "[" = false from rfl,
        show has_str parse_ambiguous_group "[" = true from rfl, hc,
        Bool.false_eq_true, if_false, Bool.true_and, if_true]
      refine ⟨?_, ?_, ?_, ?_, ?_, ?_, ?_⟩ <;>
        simp only [Arena.nfold_r, Arena.nwrap, Arena.nreplace, Arena.nreparent, Arena.nunlink,
          Arena.nappend, Arena.alloc, Arena.modifyN, Arena.setN, Arena.getN, Arena.size] <;>
        first
        | (intro j hj1 hj2 hj3
           simp [hnodeN, hlnodeN, e1, e2, e1s, e2s, hne, hnes, hj1, hj2, hj3])
        | simp [hnodeN, hlnodeN, e1, e2, e1s, e2s, hne, hnes]
    · intro hc
      unfold fold_step
      simp only [hnode, hlnode, show has_str parse_lr "[" = false from rfl,
        show has_str parse_ambiguous_group "[" = true from rfl, hc,
        show has_str parse_l "[" = false from rfl,
        show has_str parse_r "[" = false from rfl,
        show has_str parse_ternary "[" = false from rfl,
        show tbl_lookup parse_r_until_block "[" = none from rfl,
        show has_str parse_r_optional "[" = false from rfl]
      simp
    · intro st2 m d2 ch2 rm pm hd2 hm
      rcases hd2 with rfl | rfl
      · unfold fold_step
        simp only [hm, show has_str parse_lr "(" = false from rfl,
          show has_str parse_ambiguous_group "(" = true from rfl,
          show has_str parse_l "(" = false from rfl,
          show has_str parse_r "(" = false from rfl,
          show has_str parse_ternary "(" = false from rfl,
          show tbl_lookup parse_r_until_block "(" = none from rfl,
          show has_str parse_r_optional "(" = false from rfl]
        simp
      · unfold fold_step
        simp only [hm, show has_str parse_lr "[" = false from rfl,
          show has_str parse_ambiguous_group "[" = true from rfl,
          show has_str parse_l "[" = false from rfl,
          show has_str parse_r "[" = false from rfl,
          show has_str parse_ternary "[" = false from rfl,
          show tbl_lookup parse_r_until_block "[" = none from rfl,
          show has_str parse_r_optional "[" = false from rfl]
        simp

/-- Concrete instance of C7: in the three-node lex result of `f(x)` — `f`
with right sibling the `"("` group holding `x` — the dispatch on the group
node builds the invocation node `3` with data `"()"`, children `[f, group]`,
and records it as an invocation candidate. -/
theorem claim_C7_witness :
    (fold_step ⟨Arena.ofList [⟨"f", [], none, some 1, none⟩,
        ⟨"(", [some 2], some 0, none, none⟩, ⟨"x", [], none, none, some 1⟩],
        [], none, none, none, [], [], [], true, 0⟩ 1).arena.getN 3 =
      ⟨"()", [some 0, some 1], none, none, none⟩ ∧
    (fold_step ⟨Arena.ofList [⟨"f", [], none, some 1, none⟩,
        ⟨"(", [some 2], some 0, none, none⟩, ⟨"x", [], none, none, some 1⟩],
        [], none, none, none, [], [], [], true, 0⟩ 1).invocation_nodes = [3] := by
  have h := (claim_C7 ⟨Arena.ofList [⟨"f", [], none, some 1, none⟩,
      ⟨"(", [some 2], some 0, none, none⟩, ⟨"x", [], none, none, some 1⟩],
      [], none, none, none, [], [], [], true, 0⟩ 1 0 "(" "f" [some 2] []
      (by decide) (by decide) (by decide) (Or.inl rfl) (by decide) (by decide)).1 (by decide)
  exact ⟨h.1, h.2.2.2.2.1⟩
